import Mathlib

/-!
Verification of the `docker-python-nodejs` repository: the Docker image build
pipeline (`build_versions.py`) and the Jira ticket automation
(`.github/scripts/jira_automation.py`).

Python strings are modelled as lists of characters (`Str`); Python's stable
`sorted(key=..., reverse=...)` is modelled by a stable insertion sort driven by
an `Ordering`-valued comparator (`sortByCmp`); `reverse=True` is modelled by
flipping the comparator, which produces the same stable descending order.
The `semver.compare` library function is modelled by `semverCmp` on parsed
versions, with `semverParse` following the semver.org grammar that the Python
`semver` package implements (numeric components without leading zeros, optional
dot-separated prerelease identifiers, optional ignored build metadata).
-/

abbrev Str : Type := List Char

namespace DPN

/-- Comparator laws satisfied by every key-based comparison used in the
scripts: `symm` says swapping the arguments swaps the resulting `Ordering`,
`le_trans` is transitivity of the reflexive relation `c a b ≠ .gt`. -/
structure IsLawfulCmp {α : Type} (c : α → α → Ordering) : Prop where
  symm : ∀ a b, c a b = (c b a).swap
  le_trans : ∀ {a b d}, c a b ≠ .gt → c b d ≠ .gt → c a d ≠ .gt

/-- Comparator used by Python's tuple/int comparisons, specialised to `Nat`. -/
def natCmp (m n : Nat) : Ordering :=
  if m < n then .lt else if m = n then .eq else .gt

/-- Lexicographic combination of two comparators (compare by `c₁`, break ties
by `c₂`), the shape of Python's tuple comparison and of semver precedence. -/
def thenCmp {α : Type} (c₁ c₂ : α → α → Ordering) (a b : α) : Ordering :=
  match c₁ a b with
  | .eq => c₂ a b
  | o => o

/-- Lexicographic comparison of lists by an element comparator, as used for
ASCII comparison of alphanumeric identifiers and for prerelease identifier
sequences (a strict prefix compares as smaller). -/
def listLexCmp {α : Type} (c : α → α → Ordering) : List α → List α → Ordering
  | [], [] => .eq
  | [], _ :: _ => .lt
  | _ :: _, [] => .gt
  | x :: xs, y :: ys => thenCmp (fun _ _ => c x y) (fun _ _ => listLexCmp c xs ys) x y

/-- Lift a comparator through `Option`; only ever used on the domain where the
underlying parse succeeds (Python `semver.compare` raises on invalid input). -/
def optCmp {α : Type} (c : α → α → Ordering) (ox oy : Option α) : Ordering :=
  match ox, oy with
  | some x, some y => c x y
  | some _, none => .gt
  | none, some _ => .lt
  | none, none => .eq

/-- Numeric value of a digit string, as computed by Python `int()`. -/
def digitsVal (d : Str) : Nat :=
  d.foldl (fun n c => n * 10 + (c.toNat - 48)) 0

/-- Parse a numeric version component: a nonempty digit run without a leading
zero (the `0|[1-9]\d*` alternative of the semver grammar), returning the value
and the unconsumed remainder. -/
def parseNumCore (s : Str) : Option (Nat × Str) :=
  let d := s.takeWhile Char.isDigit
  let rest := s.dropWhile Char.isDigit
  if d.isEmpty then none
  else if 1 < d.length ∧ d.headD '0' = '0' then none
  else some (digitsVal d, rest)

/-- Consume one expected character. -/
def expectChar (c : Char) : Str → Option Str
  | [] => none
  | x :: xs => if x = c then some xs else none

/-- A valid semver prerelease identifier: nonempty, alphanumerics and hyphens,
and a purely numeric identifier has no leading zero. -/
def validPreId (w : Str) : Bool :=
  !w.isEmpty && w.all (fun c => c.isAlphanum || c = '-')
    && !(w.all Char.isDigit && decide (1 < w.length) && decide (w.headD ' ' = '0'))

/-- A valid semver build identifier: nonempty, alphanumerics and hyphens. -/
def validBuildId (w : Str) : Bool :=
  !w.isEmpty && w.all (fun c => c.isAlphanum || c = '-')

/-- Split a character list at a separator character, like Python `str.split`. -/
def splitOnChar (sep : Char) : Str → List Str
  | [] => [[]]
  | c :: cs =>
    let r := splitOnChar sep cs
    if c = sep then [] :: r
    else
      match r with
      | [] => [[c]]
      | h :: t => (c :: h) :: t

/-- Parsed semantic version; build metadata is validated but discarded since
`semver.compare` ignores it. -/
structure SemVer where
  major : Nat
  minor : Nat
  patch : Nat
  pre : List Str
  deriving DecidableEq

/-- Model of `semver.VersionInfo.parse` from the Python `semver` package:
`MAJOR.MINOR.PATCH` with optional `-prerelease` and `+build` parts. -/
def semverParse (s : Str) : Option SemVer :=
  match parseNumCore s with
  | none => none
  | some (maj, r1) =>
    match expectChar '.' r1 with
    | none => none
    | some r1' =>
      match parseNumCore r1' with
      | none => none
      | some (mi, r2) =>
        match expectChar '.' r2 with
        | none => none
        | some r2' =>
          match parseNumCore r2' with
          | none => none
          | some (pa, r3) =>
            match r3 with
            | [] => some ⟨maj, mi, pa, []⟩
            | c :: r4 =>
              if c = '-' then
                let preStr := r4.takeWhile (· ≠ '+')
                let buildPart := r4.dropWhile (· ≠ '+')
                let ids := splitOnChar '.' preStr
                if ids.all validPreId then
                  match buildPart with
                  | [] => some ⟨maj, mi, pa, ids⟩
                  | _ :: bstr =>
                    if (splitOnChar '.' bstr).all validBuildId then
                      some ⟨maj, mi, pa, ids⟩
                    else none
                else none
              else if c = '+' then
                if (splitOnChar '.' r4).all validBuildId then
                  some ⟨maj, mi, pa, []⟩
                else none
              else none

/-- ASCII character comparison. -/
def charCmp (a b : Char) : Ordering := natCmp a.toNat b.toNat

/-- Semver comparison of two prerelease identifiers: numeric identifiers
compare numerically and are lower than alphanumeric ones, which compare in
ASCII order. -/
def preIdCmp (x y : Str) : Ordering :=
  if x.all Char.isDigit && y.all Char.isDigit then natCmp (digitsVal x) (digitsVal y)
  else if x.all Char.isDigit then .lt
  else if y.all Char.isDigit then .gt
  else listLexCmp charCmp x y

/-- Semver comparison of prerelease identifier sequences: an absent prerelease
ranks above any prerelease; otherwise identifiers compare left to right with a
strict prefix ranking lower. -/
def preListCmp (p q : List Str) : Ordering :=
  match p, q with
  | [], [] => .eq
  | [], _ :: _ => .gt
  | _ :: _, [] => .lt
  | _ :: _, _ :: _ => listLexCmp preIdCmp p q

/-- Model of `semver.compare` on parsed versions. -/
def semverCmp (a b : SemVer) : Ordering :=
  thenCmp (fun a b => natCmp a.major b.major)
    (thenCmp (fun a b => natCmp a.minor b.minor)
      (thenCmp (fun a b => natCmp a.patch b.patch)
        (fun a b => preListCmp a.pre b.pre))) a b

/-- Model of the sort key `by_semver_key = cmp_to_key(semver.compare)` applied
to version strings.  On strings that parse, this is exactly semver precedence;
an unparsable string (where the Python library would raise `ValueError`)
compares below every parsable one, a modelling convention that is unreachable
under the parse hypotheses carried by each theorem that uses it. -/
def semverCompareStr (a b : Str) : Ordering :=
  optCmp semverCmp (semverParse a) (semverParse b)

/-- Stable insertion step: `x` is placed before the first element it does not
strictly exceed, so elements comparing equal keep their relative order, as in
Python's stable `sorted`. -/
def insertCmp {α : Type} (c : α → α → Ordering) (x : α) : List α → List α
  | [] => [x]
  | y :: ys => if c x y = .gt then y :: insertCmp c x ys else x :: y :: ys

/-- Stable ascending sort by a comparator: the model of Python's `sorted` with
a key function (`c` compares the keys of its two arguments). -/
def sortByCmp {α : Type} (c : α → α → Ordering) : List α → List α
  | [] => []
  | x :: xs => insertCmp c x (sortByCmp c xs)

/-- Model of Python's `sorted(..., reverse=True)`: the stable descending sort,
realised by sorting with the flipped comparator (equal elements keep their
original relative order, larger elements come first). -/
def pySortedDesc {α : Type} (c : α → α → Ordering) (l : List α) : List α :=
  sortByCmp (fun a b => c b a) l

/-- The relation holding along the output of a stable sort: a strictly smaller
key, or an equal key with the input relation `s` (stability). -/
def cmpRel {α : Type} (c : α → α → Ordering) (s : α → α → Prop) : α → α → Prop :=
  fun a b => c a b = .lt ∨ (c a b = .eq ∧ s a b)

/-- Python `str.startswith`. -/
def strStartsWith (pre s : Str) : Bool := pre.isPrefixOf s

/-- Python `str.endswith`. -/
def strEndsWith (suf s : Str) : Bool := suf.isSuffixOf s

/-- Consume a nonempty digit run (`\d+`). -/
def eatDigits (t : Str) : Option Str :=
  if (t.takeWhile Char.isDigit).isEmpty then none else some (t.dropWhile Char.isDigit)

/-- Full match of one alternation branch `\d+\.\d+\.\d+-<distro>` of the tag
patterns compiled in `decide_python_versions` / `decide_nodejs_versions`
(the distro names contain no regex metacharacters, so they match literally). -/
def tagCorePat (distro : Str) (t : Str) : Bool :=
  match eatDigits t with
  | none => false
  | some r1 =>
    match expectChar '.' r1 with
    | none => false
    | some r1' =>
      match eatDigits r1' with
      | none => false
      | some r2 =>
        match expectChar '.' r2 with
        | none => false
        | some r2' =>
          match eatDigits r2' with
          | none => false
          | some r3 =>
            match r3 with
            | '-' :: rest => decide (rest = distro)
            | _ => false

/-- Anchored match with Python's `$` semantics: `$` also matches just before a
single newline at the very end of the string. -/
def patMatchWithDollar (core : Str → Bool) (t : Str) : Bool :=
  core t ||
    (match t.getLast? with
     | some '\n' => core t.dropLast
     | _ => false)

/-- The compiled pattern `^(\d+\.\d+\.\d+-d1)$|^(\d+\.\d+\.\d+-d2)$|...` built
by `decide_python_versions` over the requested distros (and, with a single
distro, the pattern of `decide_nodejs_versions`). -/
def pythonTagPattern (distros : List Str) (t : Str) : Bool :=
  distros.any (fun dist => patMatchWithDollar (tagCorePat dist) t)

/-- The tag filter inside `_latest_patch`: keep tags that start with the minor
version prefix, end with `-<distro>` and match the compiled pattern. -/
def latestPatchSurvivors (tags : List Str) (ver : Str) (patch_pattern : Str → Bool)
    (distro : Str) : List Str :=
  tags.filter (fun tag =>
    strStartsWith ver tag && strEndsWith ('-' :: distro) tag && patch_pattern tag)

/-- Model of `_latest_patch`: filter, sort by semver descending (Python's
stable `sorted(..., reverse=True)`), return the first element, or the empty
string when nothing survives the filter. -/
def _latest_patch (tags : List Str) (ver : Str) (patch_pattern : Str → Bool)
    (distro : Str) : Str :=
  let tags' := latestPatchSurvivors tags ver patch_pattern distro
  if tags'.isEmpty then [] else (pySortedDesc semverCompareStr tags').headD []

/-- A resolved Python version as produced by `decide_python_versions`. -/
structure PyVersion where
  canonical_version : Str
  image : Str
  key : Str
  distro : Str
  deriving DecidableEq

/-- A resolved Node.js version as produced by `decide_nodejs_versions`. -/
structure NodeVersion where
  canonical_version : Str
  key : Str
  deriving DecidableEq

/-- One row of the Python x Node.js cross product, the dict built inside
`version_combinations`. -/
structure Combination where
  key : Str
  python : Str
  python_canonical : Str
  python_image : Str
  nodejs : Str
  nodejs_canonical : Str
  distro : Str
  deriving DecidableEq

/-- The module constant `DEFAULT_DISTRO`. -/
def DEFAULT_DISTRO : Str := "buster".data

/-- The module constant `DISTROS`. -/
def DISTROS : List Str := ["buster".data, "bullseye".data, "slim".data, "alpine".data]

/-- The combination built for one `(p, n)` pair inside the loop of
`version_combinations`, key derivation included. -/
def mkCombination (p : PyVersion) (n : NodeVersion) : Combination :=
  let distroSuffix : Str := if p.distro ≠ DEFAULT_DISTRO then '-' :: p.distro else []
  { key := "python".data ++ p.key ++ "-nodejs".data ++ n.key ++ distroSuffix
    python := p.key
    python_canonical := p.canonical_version
    python_image := p.image
    nodejs := n.key
    nodejs_canonical := n.canonical_version
    distro := p.distro }

/-- The double loop of `version_combinations` before sorting: `p` outer,
`n` inner. -/
def crossProduct (python_versions : List PyVersion) (nodejs_versions : List NodeVersion) :
    List Combination :=
  python_versions.flatMap (fun p => nodejs_versions.map (fun n => mkCombination p n))

/-- Python `list.index`, total on the domain where the element occurs (the
`DISTROS.index(...)` sort key; Python raises `ValueError` outside it, which the
membership hypotheses of the theorems exclude). -/
def listIdx (l : List Str) (x : Str) : Nat :=
  match l with
  | [] => 0
  | y :: ys => if y = x then 0 else 1 + listIdx ys x

/-- Sort key `DISTROS.index(v["distro"])` as a comparator. -/
def distroIdxCmp (a b : Combination) : Ordering :=
  natCmp (listIdx DISTROS a.distro) (listIdx DISTROS b.distro)

/-- Sort key `by_semver_key(v["nodejs_canonical"])` as a comparator. -/
def nodeCanonicalCmp (a b : Combination) : Ordering :=
  semverCompareStr a.nodejs_canonical b.nodejs_canonical

/-- Sort key `by_semver_key(v["python_canonical"])` as a comparator. -/
def pyCanonicalCmp (a b : Combination) : Ordering :=
  semverCompareStr a.python_canonical b.python_canonical

/-- Model of `version_combinations`: the cross product followed by the three
stable sorts of the source, in source order (distro index ascending, then
Node.js canonical descending, then Python canonical descending). -/
def version_combinations (nodejs_versions : List NodeVersion)
    (python_versions : List PyVersion) : List Combination :=
  let versions := crossProduct python_versions nodejs_versions
  let versions := sortByCmp distroIdxCmp versions
  let versions := pySortedDesc nodeCanonicalCmp versions
  let versions := pySortedDesc pyCanonicalCmp versions
  versions

/-- One insertion into a Python dict keyed by strings: an existing key keeps
its position and gets the new value, a new key is appended. -/
def dictInsert (dct : List (Str × Combination)) (k : Str) (v : Combination) :
    List (Str × Combination) :=
  if dct.any (fun p => decide (p.1 = k)) then
    dct.map (fun p => if p.1 = k then (k, v) else p)
  else dct ++ [(k, v)]

/-- The dict comprehension `{ver["key"]: ver for ver in ...}` with Python's
insertion-order iteration semantics. -/
def indexByKey (l : List Combination) : List (Str × Combination) :=
  l.foldl (fun dct ver => dictInsert dct ver.key ver) []

/-- Python dict lookup on the association-list model. -/
def dictGet (dct : List (Str × Combination)) (k : Str) : Option Combination :=
  (dct.find? (fun p => decide (p.1 = k))).map Prod.snd

/-- The accumulation loop of `build_new_or_updated` over `versions.items()`:
an entry is kept if its key is new, or present with a different value, or the
force flag is set. -/
def nuLoop (cur : List (Str × Combination)) (force : Bool) :
    List (Str × Combination) → List Combination
  | [] => []
  | (k, ver) :: rest =>
    let updated := (dictGet cur k).isSome && decide (dictGet cur k ≠ some ver)
    let isNew := (dictGet cur k).isNone
    if isNew || updated || force then ver :: nuLoop cur force rest
    else nuLoop cur force rest

/-- The pure change-detection part of `build_new_or_updated` (lines 171-181 of
`build_versions.py`): index both sequences by key and keep the new or updated
entries in iteration order. -/
def new_or_updated (current_versions versions : List Combination) (force : Bool) :
    List Combination :=
  nuLoop (indexByKey current_versions) force (indexByKey versions)

/-- How a run of the script terminates: normally, via an explicit
`exit(code)`, or by an uncaught Python exception (which the interpreter turns
into an unsuccessful process exit). -/
inductive ExitStatus where
  | normal : ExitStatus
  | exited : Nat → ExitStatus
  | raised : String → ExitStatus
  deriving DecidableEq

/-- Observable effects of `build_new_or_updated`: how the run ends, which
image keys were built, which were pushed to the registry, and whether the
"No new or updated versions" message was printed. -/
structure BuildEffects where
  exit : ExitStatus
  builds : List Str
  pushes : List Str
  reportedNothing : Bool
  deriving DecidableEq

/-- The build-and-push loop of `build_new_or_updated`, sequential over the
new-or-updated list.  `buildOk`/`pushOk` give the outcome of the external
`docker_client.images.build`/`push` calls per key; a failing call raises and
the loop stops with the effects so far. -/
def buildLoop (dry_run : Bool) (buildOk pushOk : Str → Bool) :
    List Combination → List Str × List Str × ExitStatus
  | [] => ([], [], .normal)
  | v :: rest =>
    if dry_run then buildLoop dry_run buildOk pushOk rest
    else if !buildOk v.key then ([], [], .raised "docker.errors.BuildError")
    else if !pushOk v.key then ([v.key], [], .raised "docker.errors.APIError")
    else
      let r := buildLoop dry_run buildOk pushOk rest
      (v.key :: r.1, v.key :: r.2.1, r.2.2)

/-- Effect model of `build_new_or_updated` (lines 171-218): compute the
new-or-updated set; report and return when it is empty; otherwise log in to
docker hub (`loginOk` is the outcome of `docker_client.login`; on failure the
script prints and calls `exit(1)`), then build and push every entry. -/
def build_new_or_updated (current_versions versions : List Combination)
    (dry_run debug force loginOk : Bool) (buildOk pushOk : Str → Bool) : BuildEffects :=
  let nu := new_or_updated current_versions versions force
  if nu.isEmpty then { exit := .normal, builds := [], pushes := [], reportedNothing := true }
  else if !loginOk then { exit := .exited 1, builds := [], pushes := [], reportedNothing := false }
  else
    let r := buildLoop dry_run buildOk pushOk nu
    { exit := r.2.2, builds := r.1, pushes := r.2.1, reportedNothing := false }

/-- Content effect of `persist_versions`: the versions file is overwritten
with the newly computed list unless `dry_run` is set. -/
def persist_versions (fileBefore versions : List Combination) (dry_run : Bool) :
    List Combination :=
  if dry_run then fileBefore else versions

/-- The literal part of the README start sentinel (everything before the `.`,
which is an unescaped regex metacharacter matching any character under
`re.DOTALL`). -/
def startLitCore : Str := "the following table of available image tags".data

/-- The start sentinel string used in the replacement text. -/
def startLit : Str := "the following table of available image tags.\n".data

/-- The end sentinel `end = "\nLovely!"` (no regex metacharacters). -/
def endLit : Str := "\nLovely!".data

/-- Does the start pattern `the following table of available image tags.\n`
match at the head of `t`?  The unescaped `.` matches any character. -/
def patStartOk (t : Str) : Bool :=
  startLitCore.isPrefixOf t && decide (t.get? (startLitCore.length + 1) = some '\n')

/-- Index of the first occurrence of `needle` in `hay`, or `none`. -/
def findSub (needle : Str) : Str → Option Nat
  | [] => if needle.isEmpty then some 0 else none
  | c :: cs =>
    if needle.isPrefixOf (c :: cs) then some 0
    else (findSub needle cs).map (· + 1)

/-- Python `needle in hay` substring containment. -/
def containsSub (needle hay : Str) : Bool := (findSub needle hay).isSome

/-- Structural worker for `subScan`.  The fuel argument only realises the
termination measure (every step consumes at least one character); it is
irrelevant as long as it bounds the text length, see `subScanFuel_congr`. -/
def subScanFuel (repl : Str) : Nat → Str → Str
  | _, [] => []
  | 0, c :: cs => c :: cs
  | fuel + 1, c :: cs =>
    if patStartOk (c :: cs) then
      match findSub endLit ((c :: cs).drop (startLitCore.length + 3)) with
      | some j =>
        repl ++
          subScanFuel repl fuel ((c :: cs).drop (startLitCore.length + 3 + j + endLit.length))
      | none => c :: subScanFuel repl fuel cs
    else c :: subScanFuel repl fuel cs

/-- Model of `sub_pattern.sub(repl, text)` for the README pattern
`<start>(.+?)<end>` with `re.DOTALL`: scan left to right; at a position where
the start pattern matches, lazily find the first later occurrence of the end
sentinel (at least one character in between), emit the replacement and
continue after the match; otherwise emit the character and move on. -/
def subScan (repl t : Str) : Str := subScanFuel repl t.length t

/-- The markdown table rendered by `update_readme_tags_table`. -/
def tableOf (versions : List Combination) : Str :=
  let headings : List Str :=
    ["Tag".data, "Python version".data, "Node.js version".data, "Distro".data]
  let rows : List (List Str) := versions.map (fun v =>
    ["`".data ++ v.key ++ "`".data, v.python_canonical, v.nodejs_canonical, v.distro])
  let head := List.intercalate " | ".data headings ++ "\n".data
    ++ List.intercalate " | ".data (headings.map (fun _ => "---".data))
  let body := List.intercalate "\n".data (rows.map (fun row => List.intercalate " | ".data row))
  head ++ "\n".data ++ body ++ "\n".data

/-- The replacement string `f"{start}\n{table}{end}"` (modelled literally;
the rendered tables contain no backslashes, so Python's replacement-escape
processing is the identity on them). -/
def replOf (versions : List Combination) : Str :=
  startLit ++ "\n".data ++ tableOf versions ++ endLit

/-- Content transformation of `update_readme_tags_table` on the README text. -/
def updateReadmeContent (versions : List Combination) (readme : Str) : Str :=
  subScan (replOf versions) readme

/-- File-level effect of `update_readme_tags_table`: the new content is
written only when it differs and `dry_run` is unset, so the resulting file
content is the transformed text exactly when `dry_run` is unset. -/
def update_readme_tags_table (versions : List Combination) (readme : Str)
    (dry_run : Bool) : Str :=
  if dry_run then readme else updateReadmeContent versions readme

/-- Observable outcome of one run of `main`. -/
structure RunEffects where
  versionsFile : List Combination
  readme : Str
  build : BuildEffects
  deriving DecidableEq

/-- Effect model of `main` (lines 245-258): load the baseline, compute the new
combinations (passed in, since they come from the network), persist them,
rewrite the README, then run change detection and the builds.  Note that
persisting happens before change detection. -/
def main_model (fileBefore : List Combination) (readmeBefore : Str)
    (versions : List Combination) (dry_run debug force loginOk : Bool)
    (buildOk pushOk : Str → Bool) : RunEffects :=
  let current_versions := fileBefore
  let file' := persist_versions fileBefore versions dry_run
  let readme' := update_readme_tags_table versions readmeBefore dry_run
  let fx := build_new_or_updated current_versions versions dry_run debug force loginOk
    buildOk pushOk
  { versionsFile := file', readme := readme', build := fx }

/-- Python `str.lower` (ASCII). -/
def lowerStr (s : Str) : Str := s.map Char.toLower

/-- The dict returned by `get_ticket_info` on success. -/
structure TicketInfo where
  issue_name : Str
  status : Str
  deriving DecidableEq

/-- Shape of the Jira issue JSON as far as `get_ticket_info` reads it; `none`
fields model missing keys. -/
structure TicketResponse where
  issuetype : Option Str
  status : Option Str
  deriving DecidableEq

/-- Model of `UpdateJira.get_ticket_info`: the argument is `none` when the
HTTP GET failed (`self.get` returned `None`); any exception while reading the
response fields is caught, logged and turned into `None`. -/
def get_ticket_info (resp : Option TicketResponse) : Option TicketInfo :=
  match resp with
  | none => none
  | some r =>
    match r.issuetype, r.status with
    | some it, some st => some ⟨lowerStr it, lowerStr st⟩
    | _, _ => none

/-- Model of `UpdateJira.has_ticket_issue`.  Subscripting `None` raises a
`TypeError` in Python, modelled by the error case. -/
def has_ticket_issue (ticket_info : Option TicketInfo) : Except String Bool :=
  match ticket_info with
  | none => .error "TypeError: NoneType object is not subscriptable"
  | some ti => .ok (decide (lowerStr ti.issue_name ∈ ["story".data, "bug".data]))

/-- Model of `UpdateJira.change_status_to_in_progress`: the returned list is
the sequence of transition ids POSTed.  `has_ticket_issue` is called before
the `if ticket_info:` guard, exactly as in the source. -/
def change_status_to_in_progress (ticket_info : Option TicketInfo) :
    Except String (List Str) :=
  match has_ticket_issue ticket_info with
  | .error e => .error e
  | .ok is_valid_issue_type =>
    .ok (match ticket_info with
         | some ti =>
           if is_valid_issue_type then
             if containsSub "backlog".data ti.status then ["121".data]
             else if containsSub "selected".data ti.status then ["21".data]
             else []
           else []
         | none => [])

/-- Model of `UpdateJira.change_status_to_needs_review`, same structure as
`change_status_to_in_progress`. -/
def change_status_to_needs_review (ticket_info : Option TicketInfo) :
    Except String (List Str) :=
  match has_ticket_issue ticket_info with
  | .error e => .error e
  | .ok is_valid_issue_type =>
    .ok (match ticket_info with
         | some ti =>
           if is_valid_issue_type then
             if containsSub "progress".data ti.status then ["151".data]
             else []
           else []
         | none => [])

/-- Consume the optional `[-_]?` separator after `vida` (the separator never
backtracks usefully because `-` and `_` are not digits). -/
def vidaSep (r : Str) : Str :=
  match r with
  | c :: cs => if c = '-' ∨ c = '_' then cs else c :: cs
  | [] => []

/-- Attempt of the pattern `vida[-_]?(\d{3,4})` at the head of `t`: the greedy
`\d{3,4}` captures up to four leading digits of a run of at least three. -/
def vidaCapture (t : Str) : Option Str :=
  if "vida".data.isPrefixOf t then
    if 3 ≤ ((vidaSep (t.drop 4)).takeWhile Char.isDigit).length then
      some (((vidaSep (t.drop 4)).takeWhile Char.isDigit).take 4)
    else none
  else none

/-- Leftmost `re.search` for the pattern `vida[-_]?(\d{3,4})`, returning the
captured digit group. -/
def searchVida : Str → Option Str
  | [] => none
  | c :: cs =>
    match vidaCapture (c :: cs) with
    | some ds => some ds
    | none => searchVida cs

/-- Model of `UpdateJira.get_jira_ticket_id`. -/
def get_jira_ticket_id (ticket_id : Str) : Option Str :=
  (searchVida ticket_id).map (fun ds => "vida-".data ++ ds)

/-- The `ticket_id` stored by `UpdateJira.__init__`, which lowercases its
argument before calling `get_jira_ticket_id`. -/
def updateJiraTicketId (ticket_id : Str) : Option Str :=
  get_jira_ticket_id (lowerStr ticket_id)

end DPN

namespace DPN

theorem Ordering.swap_swap_self (o : Ordering) : o.swap.swap = o := by
  cases o <;> rfl

theorem IsLawfulCmp.self_eq {α : Type} {c : α → α → Ordering} (h : IsLawfulCmp c)
    (a : α) : c a a = .eq := by
  have hs := h.symm a a
  cases hc : c a a with
  | lt => rw [hc] at hs; simp [Ordering.swap] at hs
  | eq => rfl
  | gt => rw [hc] at hs; simp [Ordering.swap] at hs

theorem IsLawfulCmp.gt_iff_lt {α : Type} {c : α → α → Ordering} (h : IsLawfulCmp c)
    {a b : α} : c a b = .gt ↔ c b a = .lt := by
  rw [h.symm a b]
  cases c b a <;> simp [Ordering.swap]

theorem IsLawfulCmp.eq_iff_eq {α : Type} {c : α → α → Ordering} (h : IsLawfulCmp c)
    {a b : α} : c a b = .eq ↔ c b a = .eq := by
  rw [h.symm a b]
  cases c b a <;> simp [Ordering.swap]

theorem IsLawfulCmp.ne_gt_iff {α : Type} {c : α → α → Ordering} (h : IsLawfulCmp c)
    {a b : α} : c a b ≠ .gt ↔ c b a ≠ .lt := by
  rw [h.symm a b]
  cases c b a <;> simp [Ordering.swap]

theorem IsLawfulCmp.lt_of_lt_of_le {α : Type} {c : α → α → Ordering} (h : IsLawfulCmp c)
    {a b d : α} (h₁ : c a b = .lt) (h₂ : c b d ≠ .gt) : c a d = .lt := by
  by_contra hne
  have hda : c d a ≠ .gt := by
    rw [h.symm d a]
    cases hx : c a d <;> simp [Ordering.swap] <;> simp [hx] at hne
  have : c b a ≠ .gt := h.le_trans h₂ hda
  exact this (h.gt_iff_lt.mpr h₁)

theorem IsLawfulCmp.lt_of_le_of_lt {α : Type} {c : α → α → Ordering} (h : IsLawfulCmp c)
    {a b d : α} (h₁ : c a b ≠ .gt) (h₂ : c b d = .lt) : c a d = .lt := by
  by_contra hne
  have hda : c d a ≠ .gt := by
    rw [h.symm d a]
    cases hx : c a d <;> simp [Ordering.swap] <;> simp [hx] at hne
  have : c d b ≠ .gt := h.le_trans hda h₁
  exact this (h.gt_iff_lt.mpr h₂)

theorem IsLawfulCmp.eq_trans' {α : Type} {c : α → α → Ordering} (h : IsLawfulCmp c)
    {a b d : α} (h₁ : c a b = .eq) (h₂ : c b d = .eq) : c a d = .eq := by
  have hab : c a b ≠ .gt := by simp [h₁]
  have hbd : c b d ≠ .gt := by simp [h₂]
  have h₁' : c b a = .eq := h.eq_iff_eq.mp h₁
  have h₂' : c d b = .eq := h.eq_iff_eq.mp h₂
  have hba : c b a ≠ .gt := by simp [h₁']
  have hdb : c d b ≠ .gt := by simp [h₂']
  have had : c a d ≠ .gt := h.le_trans hab hbd
  have hda : c d a ≠ .gt := h.le_trans hdb hba
  have : c a d ≠ .lt := h.ne_gt_iff.mp hda
  cases hx : c a d <;> simp [hx] at had this ⊢

theorem natCmp_lt_iff {m n : Nat} : natCmp m n = .lt ↔ m < n := by
  unfold natCmp
  split
  · simp; omega
  · split
    · simp; omega
    · simp; omega

theorem natCmp_eq_iff {m n : Nat} : natCmp m n = .eq ↔ m = n := by
  unfold natCmp
  split
  · simp; omega
  · split
    · simp; omega
    · simp; omega

theorem natCmp_gt_iff {m n : Nat} : natCmp m n = .gt ↔ n < m := by
  unfold natCmp
  split
  · simp; omega
  · split
    · simp; omega
    · simp; omega

theorem natCmp_le_iff {m n : Nat} : natCmp m n ≠ .gt ↔ m ≤ n := by
  rw [ne_eq, natCmp_gt_iff]; omega

theorem natCmp_lawful : IsLawfulCmp natCmp := by
  constructor
  · intro a b
    rcases Nat.lt_trichotomy a b with h | h | h
    · rw [natCmp_lt_iff.mpr h, natCmp_gt_iff.mpr h]; rfl
    · rw [natCmp_eq_iff.mpr h, natCmp_eq_iff.mpr h.symm]; rfl
    · rw [natCmp_gt_iff.mpr h, natCmp_lt_iff.mpr h]; rfl
  · intro a b d h₁ h₂
    rw [natCmp_le_iff] at h₁ h₂ ⊢
    omega

theorem thenCmp_lawful {α : Type} {c₁ c₂ : α → α → Ordering}
    (h₁ : IsLawfulCmp c₁) (h₂ : IsLawfulCmp c₂) : IsLawfulCmp (thenCmp c₁ c₂) := by
  constructor
  · intro a b
    unfold thenCmp
    rw [h₁.symm a b]
    cases hx : c₁ b a <;> simp [Ordering.swap]
    exact h₂.symm a b
  · intro a b d hab hbd
    unfold thenCmp at *
    cases hx : c₁ a b <;> rw [hx] at hab <;> try simp at hab
    · -- c₁ a b = .lt
      cases hy : c₁ b d <;> rw [hy] at hbd <;> try simp at hbd
      · have : c₁ a d = .lt := h₁.lt_of_lt_of_le hx (by simp [hy])
        simp [this]
      · have : c₁ a d = .lt := h₁.lt_of_lt_of_le hx (by simp [hy])
        simp [this]
    · -- c₁ a b = .eq
      cases hy : c₁ b d <;> rw [hy] at hbd <;> try simp at hbd
      · have : c₁ a d = .lt := h₁.lt_of_le_of_lt (by simp [hx]) hy
        simp [this]
      · have heq : c₁ a d = .eq := h₁.eq_trans' hx hy
        simp [heq]
        exact h₂.le_trans hab hbd

theorem listLexCmp_lawful {α : Type} {c : α → α → Ordering} (hc : IsLawfulCmp c) :
    IsLawfulCmp (listLexCmp c) := by
  constructor
  · intro a
    induction a with
    | nil => intro b; cases b <;> simp [listLexCmp, Ordering.swap]
    | cons x xs ih =>
      intro b
      cases b with
      | nil => simp [listLexCmp, Ordering.swap]
      | cons y ys =>
        simp only [listLexCmp, thenCmp]
        rw [hc.symm x y]
        cases hy : c y x <;> simp [Ordering.swap]
        exact ih ys
  · intro a
    induction a with
    | nil =>
      intro b d hab hbd
      cases d <;> simp [listLexCmp]
    | cons x xs ih =>
      intro b d hab hbd
      cases b with
      | nil => simp [listLexCmp] at hab
      | cons y ys =>
        cases d with
        | nil => simp [listLexCmp] at hbd
        | cons z zs =>
          simp only [listLexCmp, thenCmp] at hab hbd ⊢
          cases hx : c x y <;> rw [hx] at hab <;> try simp at hab
          · cases hy : c y z <;> rw [hy] at hbd <;> try simp at hbd
            · have : c x z = .lt := hc.lt_of_lt_of_le hx (by simp [hy])
              simp [this]
            · have : c x z = .lt := hc.lt_of_lt_of_le hx (by simp [hy])
              simp [this]
          · cases hy : c y z <;> rw [hy] at hbd <;> try simp at hbd
            · have : c x z = .lt := hc.lt_of_le_of_lt (by simp [hx]) hy
              simp [this]
            · have heq : c x z = .eq := hc.eq_trans' hx hy
              simp [heq]
              exact @ih ys zs hab hbd

theorem optCmp_lawful {α : Type} {c : α → α → Ordering} (hc : IsLawfulCmp c) :
    IsLawfulCmp (optCmp c) := by
  constructor
  · intro a b
    cases a <;> cases b <;> simp [optCmp, Ordering.swap]
    exact hc.symm _ _
  · intro a b d hab hbd
    cases a <;> cases b <;> cases d <;> simp [optCmp] at hab hbd ⊢
    exact hc.le_trans hab hbd

theorem keyCmp_lawful {α β : Type} {c : β → β → Ordering} (hc : IsLawfulCmp c)
    (f : α → β) : IsLawfulCmp (fun a b => c (f a) (f b)) := by
  constructor
  · intro a b; exact hc.symm _ _
  · intro a b d hab hbd; exact hc.le_trans hab hbd

theorem flipCmp_lawful {α : Type} {c : α → α → Ordering} (hc : IsLawfulCmp c) :
    IsLawfulCmp (fun a b => c b a) := by
  constructor
  · intro a b; exact hc.symm b a
  · intro a b d hab hbd; exact hc.le_trans hbd hab

theorem charCmp_lawful : IsLawfulCmp charCmp :=
  keyCmp_lawful natCmp_lawful Char.toNat

theorem preIdCmp_lawful : IsLawfulCmp preIdCmp := by
  have hlex := listLexCmp_lawful charCmp_lawful
  constructor
  · intro a b
    unfold preIdCmp
    by_cases ha : a.all Char.isDigit <;> by_cases hb : b.all Char.isDigit <;>
      simp [ha, hb, Ordering.swap]
    · exact natCmp_lawful.symm _ _
    · exact hlex.symm a b
  · intro a b d hab hbd
    unfold preIdCmp at *
    by_cases ha : a.all Char.isDigit <;> by_cases hb : b.all Char.isDigit <;>
      by_cases hd : d.all Char.isDigit <;> simp [ha, hb, hd] at hab hbd ⊢
    · exact natCmp_lawful.le_trans hab hbd
    · exact hlex.le_trans hab hbd

theorem preListCmp_lawful : IsLawfulCmp preListCmp := by
  have hlex := listLexCmp_lawful preIdCmp_lawful
  constructor
  · intro a b
    cases a <;> cases b <;> simp [preListCmp, Ordering.swap]
    exact hlex.symm _ _
  · intro a b d hab hbd
    cases a <;> cases b <;> cases d <;> simp [preListCmp] at hab hbd ⊢
    exact hlex.le_trans hab hbd

theorem semverCmp_lawful : IsLawfulCmp semverCmp := by
  unfold semverCmp
  exact thenCmp_lawful (keyCmp_lawful natCmp_lawful _)
    (thenCmp_lawful (keyCmp_lawful natCmp_lawful _)
      (thenCmp_lawful (keyCmp_lawful natCmp_lawful _)
        (keyCmp_lawful preListCmp_lawful _)))

theorem semverCompareStr_lawful : IsLawfulCmp semverCompareStr := by
  unfold semverCompareStr
  exact keyCmp_lawful (optCmp_lawful semverCmp_lawful) semverParse

theorem mem_insertCmp {α : Type} {c : α → α → Ordering} {x a : α} {l : List α} :
    a ∈ insertCmp c x l ↔ a = x ∨ a ∈ l := by
  induction l with
  | nil => simp [insertCmp]
  | cons y ys ih =>
    unfold insertCmp
    split
    · simp [ih]; tauto
    · simp

theorem perm_insertCmp {α : Type} (c : α → α → Ordering) (x : α) (l : List α) :
    (insertCmp c x l).Perm (x :: l) := by
  induction l with
  | nil => simp [insertCmp]
  | cons y ys ih =>
    unfold insertCmp
    split
    · exact (ih.cons y).trans (List.Perm.swap x y ys)
    · exact List.Perm.refl _

theorem perm_sortByCmp {α : Type} (c : α → α → Ordering) (l : List α) :
    (sortByCmp c l).Perm l := by
  induction l with
  | nil => exact List.Perm.refl _
  | cons x xs ih =>
    exact (perm_insertCmp c x (sortByCmp c xs)).trans (ih.cons x)

theorem pairwise_insertCmp {α : Type} {c : α → α → Ordering} (hc : IsLawfulCmp c)
    {s : α → α → Prop} {x : α} {l : List α}
    (hl : l.Pairwise (cmpRel c s)) (hx : ∀ z ∈ l, s x z) :
    (insertCmp c x l).Pairwise (cmpRel c s) := by
  induction l with
  | nil => simp [insertCmp, List.Pairwise]
  | cons y ys ih =>
    unfold insertCmp
    rcases List.pairwise_cons.mp hl with ⟨hyys, hys⟩
    split
    · rename_i hgt
      refine List.pairwise_cons.mpr ⟨?_, ih hys (fun z hz => hx z (List.mem_cons_of_mem y hz))⟩
      intro a ha
      rcases mem_insertCmp.mp ha with rfl | ha'
      · exact Or.inl (hc.gt_iff_lt.mp hgt)
      · exact hyys a ha'
    · rename_i hng
      refine List.pairwise_cons.mpr ⟨?_, hl⟩
      intro a ha
      have hxy : c x y ≠ .gt := hng
      rcases List.mem_cons.mp ha with rfl | ha'
      · cases hcase : c x a with
        | lt => exact Or.inl hcase
        | eq => exact Or.inr ⟨hcase, hx a (List.mem_cons_self a ys)⟩
        | gt => exact absurd hcase hxy
      · have hya : c y a ≠ .gt := by
          rcases hyys a ha' with h | ⟨h, _⟩ <;> simp [h]
        have hxa : c x a ≠ .gt := hc.le_trans hxy hya
        cases hcase : c x a with
        | lt => exact Or.inl hcase
        | eq => exact Or.inr ⟨hcase, hx a (List.mem_cons_of_mem y ha')⟩
        | gt => exact absurd hcase hxa

theorem pairwise_sortByCmp {α : Type} {c : α → α → Ordering} (hc : IsLawfulCmp c)
    {s : α → α → Prop} {l : List α} (hl : l.Pairwise s) :
    (sortByCmp c l).Pairwise (cmpRel c s) := by
  induction l with
  | nil => simp [sortByCmp]
  | cons x xs ih =>
    rcases List.pairwise_cons.mp hl with ⟨hxxs, hxs⟩
    refine pairwise_insertCmp hc (ih hxs) ?_
    intro z hz
    exact hxxs z ((perm_sortByCmp c xs).mem_iff.mp hz)

theorem head_sortByCmp {α : Type} {c : α → α → Ordering} (hc : IsLawfulCmp c)
    (d : α) {l : List α} (hne : l ≠ []) :
    (∀ y ∈ l, c ((sortByCmp c l).headD d) y ≠ .gt) ∧
      ∃ pre post, l = pre ++ (sortByCmp c l).headD d :: post ∧
        ∀ y ∈ pre, c ((sortByCmp c l).headD d) y = .lt := by
  induction l with
  | nil => exact absurd rfl hne
  | cons x xs ih =>
    by_cases hxs : xs = []
    · subst hxs
      refine ⟨?_, [], [], by simp [sortByCmp, insertCmp], by simp⟩
      intro y hy
      rcases List.mem_singleton.mp hy with rfl
      simp [sortByCmp, insertCmp, hc.self_eq]
    · rcases ih hxs with ⟨hmax, pre₁, post₁, hdecomp, hpre₁⟩
      have hsortne : sortByCmp c xs ≠ [] := by
        intro h
        have hlen := (perm_sortByCmp c xs).length_eq
        rw [h] at hlen
        exact hxs (List.eq_nil_of_length_eq_zero hlen.symm)
      obtain ⟨h₁, t₁, hsort⟩ : ∃ h₁ t₁, sortByCmp c xs = h₁ :: t₁ := by
        cases hs : sortByCmp c xs with
        | nil => exact absurd hs hsortne
        | cons a b => exact ⟨a, b, rfl⟩
      have hh₁ : (sortByCmp c xs).headD d = h₁ := by rw [hsort]; rfl
      rw [hh₁] at hmax hdecomp hpre₁
      have hunfold : sortByCmp c (x :: xs) = insertCmp c x (h₁ :: t₁) := by
        show insertCmp c x (sortByCmp c xs) = _
        rw [hsort]
      rw [hunfold]
      unfold insertCmp
      split
      · rename_i hgt
        -- x is strictly greater than the running head, which stays in front
        have hhd : ((h₁ :: insertCmp c x t₁).headD d) = h₁ := rfl
        rw [hhd]
        constructor
        · intro y hy
          rcases List.mem_cons.mp hy with rfl | hy'
          · rw [hc.ne_gt_iff]
            simp [hgt]
          · exact hmax y hy'
        · exact ⟨x :: pre₁, post₁, by rw [hdecomp]; simp, by
            intro y hy
            rcases List.mem_cons.mp hy with rfl | hy'
            · exact hc.gt_iff_lt.mp hgt
            · exact hpre₁ y hy'⟩
      · rename_i hng
        have hxh₁ : c x h₁ ≠ .gt := hng
        have hhd : ((x :: h₁ :: t₁).headD d) = x := rfl
        rw [hhd]
        refine ⟨?_, [], xs, rfl, by simp⟩
        intro y hy
        rcases List.mem_cons.mp hy with rfl | hy'
        · simp [hc.self_eq]
        · exact hc.le_trans hxh₁ (hmax y hy')

theorem latest_patch_eq_head (tags : List Str) (ver : Str) (patch_pattern : Str → Bool)
    (distro : Str) (hne : latestPatchSurvivors tags ver patch_pattern distro ≠ []) :
    _latest_patch tags ver patch_pattern distro =
      (sortByCmp (fun a b => semverCompareStr b a)
        (latestPatchSurvivors tags ver patch_pattern distro)).headD [] := by
  have hie : (latestPatchSurvivors tags ver patch_pattern distro).isEmpty = false := by
    cases h : latestPatchSurvivors tags ver patch_pattern distro with
    | nil => exact absurd h hne
    | cons a b => rfl
  simp [_latest_patch, pySortedDesc, hie]

/-- C1: for every list of tags, minor-version prefix, compiled pattern and
distro, `_latest_patch` returns the empty string when no tag survives the
filter, and otherwise returns a survivor that is maximal under semver ordering
among the tags that start with the prefix, end with `-<distro>` and match the
pattern (the parse hypothesis marks the domain on which Python's
`semver.compare` does not raise). -/
theorem latest_patch_max_spec (tags : List Str) (ver : Str) (patch_pattern : Str → Bool)
    (distro : Str)
    (hparse : ∀ t ∈ latestPatchSurvivors tags ver patch_pattern distro,
      (semverParse t).isSome = true) :
    (latestPatchSurvivors tags ver patch_pattern distro = [] →
      _latest_patch tags ver patch_pattern distro = []) ∧
    (latestPatchSurvivors tags ver patch_pattern distro ≠ [] →
      _latest_patch tags ver patch_pattern distro ∈
          latestPatchSurvivors tags ver patch_pattern distro ∧
        ∀ y ∈ latestPatchSurvivors tags ver patch_pattern distro,
          semverCompareStr y (_latest_patch tags ver patch_pattern distro) ≠ .gt) := by
  constructor
  · intro h
    simp [_latest_patch, h]
  · intro hne
    have hlaw : IsLawfulCmp (fun a b : Str => semverCompareStr b a) :=
      flipCmp_lawful semverCompareStr_lawful
    obtain ⟨hmax, pre, post, hdec, hpre⟩ := head_sortByCmp hlaw ([] : Str) hne
    rw [← latest_patch_eq_head tags ver patch_pattern distro hne] at hmax hdec
    constructor
    · rw [hdec]
      exact List.mem_append.mpr (Or.inr (List.mem_cons_self _ _))
    · intro y hy
      exact hmax y hy

/-- C1 witness: on the spec's example the hypotheses hold and the selector
returns `3.9.2-buster`. -/
theorem latest_patch_max_witness :
    (_latest_patch ["3.9.1-buster".data, "3.9.2-buster".data, "3.10.0-buster".data]
          "3.9".data (pythonTagPattern ["buster".data]) "buster".data ∈
        latestPatchSurvivors ["3.9.1-buster".data, "3.9.2-buster".data, "3.10.0-buster".data]
          "3.9".data (pythonTagPattern ["buster".data]) "buster".data ∧
      ∀ y ∈ latestPatchSurvivors ["3.9.1-buster".data, "3.9.2-buster".data, "3.10.0-buster".data]
          "3.9".data (pythonTagPattern ["buster".data]) "buster".data,
        semverCompareStr y
          (_latest_patch ["3.9.1-buster".data, "3.9.2-buster".data, "3.10.0-buster".data]
            "3.9".data (pythonTagPattern ["buster".data]) "buster".data) ≠ .gt) ∧
    _latest_patch ["3.9.1-buster".data, "3.9.2-buster".data, "3.10.0-buster".data]
        "3.9".data (pythonTagPattern ["buster".data]) "buster".data = "3.9.2-buster".data :=
  ⟨(latest_patch_max_spec
      ["3.9.1-buster".data, "3.9.2-buster".data, "3.10.0-buster".data]
      "3.9".data (pythonTagPattern ["buster".data]) "buster".data (by decide)).2 (by decide),
    by decide⟩

/-- C7: on a nonempty survivor list the returned tag is the first element, in
original input order, among the tied maxima: every earlier survivor compares
strictly below it and no survivor compares above it (the stable descending
sort preserves input order among equal elements). -/
theorem latest_patch_tie_first_spec (tags : List Str) (ver : Str)
    (patch_pattern : Str → Bool) (distro : Str)
    (hparse : ∀ t ∈ latestPatchSurvivors tags ver patch_pattern distro,
      (semverParse t).isSome = true)
    (hne : latestPatchSurvivors tags ver patch_pattern distro ≠ []) :
    ∃ pre post,
      latestPatchSurvivors tags ver patch_pattern distro =
          pre ++ _latest_patch tags ver patch_pattern distro :: post ∧
        (∀ y ∈ pre, semverCompareStr y (_latest_patch tags ver patch_pattern distro) = .lt) ∧
        ∀ y ∈ latestPatchSurvivors tags ver patch_pattern distro,
          semverCompareStr y (_latest_patch tags ver patch_pattern distro) ≠ .gt := by
  have hlaw : IsLawfulCmp (fun a b : Str => semverCompareStr b a) :=
    flipCmp_lawful semverCompareStr_lawful
  obtain ⟨hmax, pre, post, hdec, hpre⟩ := head_sortByCmp hlaw ([] : Str) hne
  rw [← latest_patch_eq_head tags ver patch_pattern distro hne] at hmax hdec hpre
  exact ⟨pre, post, hdec, fun y hy => hpre y hy, fun y hy => hmax y hy⟩

theorem distroIdxCmp_lawful : IsLawfulCmp distroIdxCmp := by
  unfold distroIdxCmp
  exact keyCmp_lawful natCmp_lawful (fun v : Combination => listIdx DISTROS v.distro)

theorem nodeCanonicalCmp_lawful : IsLawfulCmp nodeCanonicalCmp := by
  unfold nodeCanonicalCmp
  exact keyCmp_lawful semverCompareStr_lawful Combination.nodejs_canonical

theorem pyCanonicalCmp_lawful : IsLawfulCmp pyCanonicalCmp := by
  unfold pyCanonicalCmp
  exact keyCmp_lawful semverCompareStr_lawful Combination.python_canonical

/-- C2: `version_combinations` returns a permutation of the cross product of
its inputs (outer loop over Python versions, inner loop over Node.js versions)
and, because the three stable sorts are applied in sequence, its output is
ordered with the last-applied key dominating: Python canonical version
descending first, then Node.js canonical version descending, then the distro's
position in `DISTROS` ascending, and, within complete ties, any relation `s`
that held pairwise along the cross product (in particular its original order —
this is the stability contract).  The output is a pure function of the inputs,
so identical inputs give identical ordered output on every run.  The
hypotheses delimit the inputs on which the Python sort keys do not raise
(`semver.compare` parses every canonical version, `DISTROS.index` finds every
distro). -/
theorem version_combinations_order_spec (nodejs_versions : List NodeVersion)
    (python_versions : List PyVersion)
    (hp : ∀ p ∈ python_versions,
      (semverParse p.canonical_version).isSome = true ∧ p.distro ∈ DISTROS)
    (hn : ∀ n ∈ nodejs_versions, (semverParse n.canonical_version).isSome = true) :
    (version_combinations nodejs_versions python_versions).Perm
        (crossProduct python_versions nodejs_versions) ∧
      ∀ (s : Combination → Combination → Prop),
        (crossProduct python_versions nodejs_versions).Pairwise s →
        (version_combinations nodejs_versions python_versions).Pairwise
          (cmpRel (fun a b => pyCanonicalCmp b a)
            (cmpRel (fun a b => nodeCanonicalCmp b a)
              (cmpRel distroIdxCmp s))) := by
  constructor
  · exact (perm_sortByCmp _ _).trans ((perm_sortByCmp _ _).trans (perm_sortByCmp _ _))
  · intro s hs
    exact pairwise_sortByCmp (flipCmp_lawful pyCanonicalCmp_lawful)
      (pairwise_sortByCmp (flipCmp_lawful nodeCanonicalCmp_lawful)
        (pairwise_sortByCmp distroIdxCmp_lawful hs))

/-- C2 witness: the ordering contract instantiated on a concrete pair of input
lists (two Python resolved versions over two distros, two Node.js resolved
versions), with the trivial pairwise relation on the cross product. -/
theorem version_combinations_order_witness :
    (version_combinations
        [⟨"14.2.0".data, "14".data⟩, ⟨"12.9.1".data, "12".data⟩]
        [⟨"3.9.2".data, "3.9.2-buster".data, "3.9".data, "buster".data⟩,
          ⟨"3.9.2".data, "3.9.2-slim".data, "3.9".data, "slim".data⟩]).Perm
      (crossProduct
        [⟨"3.9.2".data, "3.9.2-buster".data, "3.9".data, "buster".data⟩,
          ⟨"3.9.2".data, "3.9.2-slim".data, "3.9".data, "slim".data⟩]
        [⟨"14.2.0".data, "14".data⟩, ⟨"12.9.1".data, "12".data⟩]) ∧
    (version_combinations
        [⟨"14.2.0".data, "14".data⟩, ⟨"12.9.1".data, "12".data⟩]
        [⟨"3.9.2".data, "3.9.2-buster".data, "3.9".data, "buster".data⟩,
          ⟨"3.9.2".data, "3.9.2-slim".data, "3.9".data, "slim".data⟩]).Pairwise
      (cmpRel (fun a b => pyCanonicalCmp b a)
        (cmpRel (fun a b => nodeCanonicalCmp b a)
          (cmpRel distroIdxCmp (fun _ _ => True)))) := by
  have h := version_combinations_order_spec
    [⟨"14.2.0".data, "14".data⟩, ⟨"12.9.1".data, "12".data⟩]
    [⟨"3.9.2".data, "3.9.2-buster".data, "3.9".data, "buster".data⟩,
      ⟨"3.9.2".data, "3.9.2-slim".data, "3.9".data, "slim".data⟩]
    (by decide) (by decide)
  exact ⟨h.1, h.2 (fun _ _ => True) (List.pairwise_iff_forall_sublist.mpr (fun _ => trivial))⟩

theorem dictInsert_of_not_mem {dct : List (Str × Combination)} {k : Str} {v : Combination}
    (h : ∀ p ∈ dct, p.1 ≠ k) : dictInsert dct k v = dct ++ [(k, v)] := by
  unfold dictInsert
  have hany : dct.any (fun p => decide (p.1 = k)) = false := by
    rw [List.any_eq_false]
    intro p hp
    simpa using h p hp
  simp [hany]

theorem indexByKey_go {l : List Combination} {acc : List (Str × Combination)}
    (h : ∀ p ∈ acc, ∀ v ∈ l, p.1 ≠ v.key) (hnd : (l.map Combination.key).Nodup) :
    l.foldl (fun dct ver => dictInsert dct ver.key ver) acc =
      acc ++ l.map (fun v => (v.key, v)) := by
  induction l generalizing acc with
  | nil => simp
  | cons hd tl ih =>
    simp only [List.foldl_cons]
    rw [dictInsert_of_not_mem (fun p hp => h p hp hd (List.mem_cons_self hd tl))]
    rw [List.map_cons, List.nodup_cons] at hnd
    rw [ih ?_ hnd.2]
    · simp
    · intro p hp v hv
      rcases List.mem_append.mp hp with hp' | hp'
      · exact h p hp' v (List.mem_cons_of_mem hd hv)
      · rcases List.mem_singleton.mp hp' with rfl
        intro hkey
        apply hnd.1
        have hv' := List.mem_map_of_mem Combination.key hv
        rwa [← show hd.key = v.key from hkey] at hv'

theorem indexByKey_eq_map {l : List Combination} (hnd : (l.map Combination.key).Nodup) :
    indexByKey l = l.map (fun v => (v.key, v)) := by
  unfold indexByKey
  rw [indexByKey_go (by simp) hnd]
  simp

theorem dictGet_map_eq_find {l : List Combination} {k : Str} :
    dictGet (l.map (fun v => (v.key, v))) k =
      l.find? (fun b => decide (b.key = k)) := by
  induction l with
  | nil => rfl
  | cons x xs ih =>
    simp only [List.map_cons, dictGet] at ih ⊢
    simp only [List.find?]
    cases hd : decide (x.key = k) with
    | true =>
      simp only [hd]
      rfl
    | false =>
      simp only [hd]
      exact ih

theorem nuLoop_eq_filter (cur : List (Str × Combination)) (force : Bool)
    (l : List Combination) :
    nuLoop cur force (l.map (fun v => (v.key, v))) =
      l.filter (fun v =>
        (dictGet cur v.key).isNone ||
          ((dictGet cur v.key).isSome && decide (dictGet cur v.key ≠ some v)) || force) := by
  induction l with
  | nil => rfl
  | cons x xs ih =>
    simp only [List.map_cons]
    rw [List.filter_cons]
    cases hcond : ((dictGet cur x.key).isNone ||
        ((dictGet cur x.key).isSome && decide (dictGet cur x.key ≠ some x)) || force) with
    | true => simp only [nuLoop, hcond, if_pos, ih, cond_true, ite_true]
    | false => simp only [nuLoop, hcond, ih, cond_false, ite_false]

/-- C3: under the key-uniqueness invariant on both sequences (each is indexed
by its `key` field), a combination of the new sequence `N` appears in the
new-or-updated list iff its key is absent from the baseline `B`, or `B`'s
entry for that key differs from it, or the force flag is set; and with
`force = true` the new-or-updated list is exactly `N`. -/
theorem build_new_or_updated_spec (B N : List Combination) (force : Bool)
    (hB : (B.map Combination.key).Nodup) (hN : (N.map Combination.key).Nodup) :
    (∀ c, c ∈ new_or_updated B N force ↔
      c ∈ N ∧
        (B.find? (fun b => decide (b.key = c.key)) = none ∨
          (∃ b, B.find? (fun b' => decide (b'.key = c.key)) = some b ∧ b ≠ c) ∨
          force = true)) ∧
    (force = true → new_or_updated B N force = N) := by
  have hrw : new_or_updated B N force =
      N.filter (fun v =>
        (dictGet (indexByKey B) v.key).isNone ||
          ((dictGet (indexByKey B) v.key).isSome &&
            decide (dictGet (indexByKey B) v.key ≠ some v)) || force) := by
    unfold new_or_updated
    rw [indexByKey_eq_map hN, nuLoop_eq_filter]
  have hget : ∀ k, dictGet (indexByKey B) k = B.find? (fun b => decide (b.key = k)) := by
    intro k
    rw [indexByKey_eq_map hB, dictGet_map_eq_find]
  constructor
  · intro c
    rw [hrw, List.mem_filter]
    have hc := hget c.key
    constructor
    · rintro ⟨hcN, hcond⟩
      refine ⟨hcN, ?_⟩
      simp only [hc] at hcond
      cases hfind : B.find? (fun b => decide (b.key = c.key)) with
      | none => exact Or.inl rfl
      | some b =>
        rw [hfind] at hcond
        simp only [Option.isNone_some, Option.isSome_some, Bool.false_or, Bool.true_and,
          Bool.or_eq_true, decide_eq_true_eq] at hcond
        rcases hcond with h | h
        · refine Or.inr (Or.inl ⟨b, rfl, ?_⟩)
          intro hbc
          exact h (by rw [hbc])
        · exact Or.inr (Or.inr h)
    · rintro ⟨hcN, hcond⟩
      refine ⟨hcN, ?_⟩
      simp only [hc]
      rcases hcond with h | ⟨b, hb, hbc⟩ | h
      · simp [h]
      · rw [hb]
        simp only [Option.isNone_some, Option.isSome_some, Bool.false_or, Bool.true_and,
          Bool.or_eq_true, decide_eq_true_eq]
        left
        intro heq
        exact hbc (Option.some_injective _ heq)
      · simp [h]
  · intro hforce
    subst hforce
    rw [hrw]
    simp

/-- C3 witness: a baseline with one unchanged and one stale entry against a
new sequence with the unchanged entry, an updated entry and a fresh entry;
the membership criterion is checked at the updated entry, and force returns
the whole new sequence. -/
theorem build_new_or_updated_witness :
    ((⟨"k2".data, "3.8".data, "3.8.2".data, "i2b".data, "14".data, "14.1.0".data,
        "buster".data⟩ : Combination) ∈ new_or_updated
        [⟨"k1".data, "3.9".data, "3.9.1".data, "i1".data, "14".data, "14.1.0".data, "buster".data⟩,
          ⟨"k2".data, "3.8".data, "3.8.1".data, "i2".data, "14".data, "14.1.0".data, "buster".data⟩]
        [⟨"k1".data, "3.9".data, "3.9.1".data, "i1".data, "14".data, "14.1.0".data, "buster".data⟩,
          ⟨"k2".data, "3.8".data, "3.8.2".data, "i2b".data, "14".data, "14.1.0".data, "buster".data⟩,
          ⟨"k3".data, "3.10".data, "3.10.0".data, "i3".data, "14".data, "14.1.0".data, "buster".data⟩]
        false ↔
      (⟨"k2".data, "3.8".data, "3.8.2".data, "i2b".data, "14".data, "14.1.0".data,
          "buster".data⟩ : Combination) ∈
          [⟨"k1".data, "3.9".data, "3.9.1".data, "i1".data, "14".data, "14.1.0".data, "buster".data⟩,
            ⟨"k2".data, "3.8".data, "3.8.2".data, "i2b".data, "14".data, "14.1.0".data, "buster".data⟩,
            ⟨"k3".data, "3.10".data, "3.10.0".data, "i3".data, "14".data, "14.1.0".data, "buster".data⟩] ∧
        (([⟨"k1".data, "3.9".data, "3.9.1".data, "i1".data, "14".data, "14.1.0".data, "buster".data⟩,
          ⟨"k2".data, "3.8".data, "3.8.1".data, "i2".data, "14".data, "14.1.0".data, "buster".data⟩] :
            List Combination).find?
            (fun b => decide (b.key =
              (⟨"k2".data, "3.8".data, "3.8.2".data, "i2b".data, "14".data, "14.1.0".data,
                "buster".data⟩ : Combination).key)) = none ∨
          (∃ b, ([⟨"k1".data, "3.9".data, "3.9.1".data, "i1".data, "14".data, "14.1.0".data, "buster".data⟩,
            ⟨"k2".data, "3.8".data, "3.8.1".data, "i2".data, "14".data, "14.1.0".data, "buster".data⟩] :
              List Combination).find?
              (fun b' => decide (b'.key =
                (⟨"k2".data, "3.8".data, "3.8.2".data, "i2b".data, "14".data, "14.1.0".data,
                  "buster".data⟩ : Combination).key)) = some b ∧
            b ≠ (⟨"k2".data, "3.8".data, "3.8.2".data, "i2b".data, "14".data, "14.1.0".data,
              "buster".data⟩ : Combination)) ∨
          false = true)) ∧
    new_or_updated
        [⟨"k1".data, "3.9".data, "3.9.1".data, "i1".data, "14".data, "14.1.0".data, "buster".data⟩,
          ⟨"k2".data, "3.8".data, "3.8.1".data, "i2".data, "14".data, "14.1.0".data, "buster".data⟩]
        [⟨"k1".data, "3.9".data, "3.9.1".data, "i1".data, "14".data, "14.1.0".data, "buster".data⟩,
          ⟨"k2".data, "3.8".data, "3.8.2".data, "i2b".data, "14".data, "14.1.0".data, "buster".data⟩]
        true =
      [⟨"k1".data, "3.9".data, "3.9.1".data, "i1".data, "14".data, "14.1.0".data, "buster".data⟩,
        ⟨"k2".data, "3.8".data, "3.8.2".data, "i2b".data, "14".data, "14.1.0".data, "buster".data⟩] :=
  ⟨(build_new_or_updated_spec
      [⟨"k1".data, "3.9".data, "3.9.1".data, "i1".data, "14".data, "14.1.0".data, "buster".data⟩,
        ⟨"k2".data, "3.8".data, "3.8.1".data, "i2".data, "14".data, "14.1.0".data, "buster".data⟩]
      [⟨"k1".data, "3.9".data, "3.9.1".data, "i1".data, "14".data, "14.1.0".data, "buster".data⟩,
        ⟨"k2".data, "3.8".data, "3.8.2".data, "i2b".data, "14".data, "14.1.0".data, "buster".data⟩,
        ⟨"k3".data, "3.10".data, "3.10.0".data, "i3".data, "14".data, "14.1.0".data, "buster".data⟩]
      false (by decide) (by decide)).1
      ⟨"k2".data, "3.8".data, "3.8.2".data, "i2b".data, "14".data, "14.1.0".data, "buster".data⟩,
    (build_new_or_updated_spec
      [⟨"k1".data, "3.9".data, "3.9.1".data, "i1".data, "14".data, "14.1.0".data, "buster".data⟩,
        ⟨"k2".data, "3.8".data, "3.8.1".data, "i2".data, "14".data, "14.1.0".data, "buster".data⟩]
      [⟨"k1".data, "3.9".data, "3.9.1".data, "i1".data, "14".data, "14.1.0".data, "buster".data⟩,
        ⟨"k2".data, "3.8".data, "3.8.2".data, "i2b".data, "14".data, "14.1.0".data, "buster".data⟩]
      true (by decide) (by decide)).2 rfl⟩

theorem split_at_hyphen {u v u' v' : Str} (hu : '-' ∉ u) (hu' : '-' ∉ u') :
    u ++ '-' :: v = u' ++ '-' :: v' → u = u' ∧ v = v' := by
  induction u generalizing u' with
  | nil =>
    cases u' with
    | nil => intro h; simpa using h
    | cons c cs =>
      intro h
      simp only [List.nil_append, List.cons_append, List.cons.injEq] at h
      exact absurd (h.1 ▸ List.mem_cons_self c cs) hu'
  | cons c cs ih =>
    cases u' with
    | nil =>
      intro h
      simp only [List.cons_append, List.nil_append, List.cons.injEq] at h
      exact absurd (h.1 ▸ List.mem_cons_self c cs) hu
    | cons c' cs' =>
      intro h
      simp only [List.cons_append, List.cons.injEq] at h
      have hcs : '-' ∉ cs := fun hm => hu (List.mem_cons_of_mem c hm)
      have hcs' : '-' ∉ cs' := fun hm => hu' (List.mem_cons_of_mem c' hm)
      obtain ⟨h1, h2⟩ := ih hcs hcs' h.2
      exact ⟨by rw [h.1, h1], h2⟩

theorem mkCombination_key_eq (p : PyVersion) (n : NodeVersion) :
    (mkCombination p n).key = "python".data ++ p.key ++ "-nodejs".data ++ n.key ++
      (if p.distro = DEFAULT_DISTRO then [] else '-' :: p.distro) := by
  unfold mkCombination
  by_cases h : p.distro = DEFAULT_DISTRO <;> simp [h]

theorem mkCombination_key_inj {p p' : PyVersion} {n n' : NodeVersion}
    (hpk : '-' ∉ p.key) (hpk' : '-' ∉ p'.key) (hnk : '-' ∉ n.key) (hnk' : '-' ∉ n'.key)
    (hpd : '-' ∉ p.distro) (hpd' : '-' ∉ p'.distro)
    (hk : (mkCombination p n).key = (mkCombination p' n').key) :
    p.key = p'.key ∧ n.key = n'.key ∧ p.distro = p'.distro := by
  rw [mkCombination_key_eq, mkCombination_key_eq] at hk
  have hdash : ("-nodejs".data : Str) = '-' :: "nodejs".data := by decide
  rw [hdash] at hk
  simp only [List.append_assoc, List.cons_append, List.nil_append] at hk
  simp only [List.cons.injEq, eq_self_iff_true, true_and] at hk
  obtain ⟨hpkey, hk2⟩ := split_at_hyphen hpk hpk' hk
  simp only [List.cons.injEq, eq_self_iff_true, true_and] at hk2
  have hk3 := hk2
  refine ⟨hpkey, ?_⟩
  by_cases hd : p.distro = DEFAULT_DISTRO <;> by_cases hd' : p'.distro = DEFAULT_DISTRO
  · rw [if_pos hd, if_pos hd'] at hk3
    simp only [List.append_nil] at hk3
    exact ⟨hk3, by rw [hd, hd']⟩
  · rw [if_pos hd, if_neg hd'] at hk3
    simp only [List.append_nil] at hk3
    exfalso
    apply hnk
    rw [hk3]
    exact List.mem_append.mpr (Or.inr (List.mem_cons_self _ _))
  · rw [if_neg hd, if_pos hd'] at hk3
    simp only [List.append_nil] at hk3
    exfalso
    apply hnk'
    rw [← hk3]
    exact List.mem_append.mpr (Or.inr (List.mem_cons_self _ _))
  · rw [if_neg hd, if_neg hd'] at hk3
    exact split_at_hyphen hnk hnk' hk3

theorem nodup_map_pairwise_ne {α β : Type} {f : α → β} {l : List α}
    (h : (l.map f).Nodup) : l.Pairwise (fun a b => f a ≠ f b) :=
  List.pairwise_map.mp h

theorem crossProduct_keys_nodup (python_versions : List PyVersion)
    (nodejs_versions : List NodeVersion)
    (hfree : ∀ p ∈ python_versions, '-' ∉ p.key ∧ '-' ∉ p.distro)
    (hnfree : ∀ n ∈ nodejs_versions, '-' ∉ n.key)
    (hpnd : (python_versions.map (fun p => (p.key, p.distro))).Nodup)
    (hnk : (nodejs_versions.map NodeVersion.key).Nodup) :
    ((crossProduct python_versions nodejs_versions).map Combination.key).Nodup := by
  unfold crossProduct
  rw [List.map_flatMap]
  rw [List.nodup_flatMap]
  constructor
  · intro p hp
    rw [List.map_map]
    have hcomp : (Combination.key ∘ mkCombination p) =
        (fun nk => "python".data ++ p.key ++ "-nodejs".data ++ nk ++
          (if p.distro = DEFAULT_DISTRO then [] else '-' :: p.distro)) ∘ NodeVersion.key := by
      funext n
      exact mkCombination_key_eq p n
    rw [hcomp, ← List.map_map]
    refine List.Nodup.map ?_ hnk
    intro a b hab
    simp only [List.append_assoc] at hab
    have h1 := List.append_cancel_left hab
    have h2 := List.append_cancel_left h1
    have h3 := List.append_cancel_left h2
    exact List.append_cancel_right h3
  · have hpair := nodup_map_pairwise_ne hpnd
    refine List.Pairwise.imp_of_mem ?_ hpair
    intro p₁ p₂ hp₁ hp₂ hne
    intro k hk₁ hk₂
    rcases List.mem_map.mp hk₁ with ⟨c₁, hc₁, hkey₁⟩
    rcases List.mem_map.mp hc₁ with ⟨n₁, hn₁, rfl⟩
    rcases List.mem_map.mp hk₂ with ⟨c₂, hc₂, hkey₂⟩
    rcases List.mem_map.mp hc₂ with ⟨n₂, hn₂, rfl⟩
    have hinj := mkCombination_key_inj (hfree p₁ hp₁).1 (hfree p₂ hp₂).1
      (hnfree n₁ hn₁) (hnfree n₂ hn₂) (hfree p₁ hp₁).2 (hfree p₂ hp₂).2
      (hkey₁.trans hkey₂.symm)
    exact hne (by rw [hinj.1, hinj.2.2])

/-- C4 counterexample: the claim's key-uniqueness quantification over all
resolved-version lists fails: with Python entries `("3.9", slim)` and
`("3.9", buster)` and Node.js keys `14` and `14-slim`, two pairs with distinct
`(python_key, nodejs_key, distro)` triples both produce the key
`python3.9-nodejs14-slim`, so the produced set's keys are not unique even
though the triples are pairwise distinct. -/
theorem combination_key_collision_counterexample :
    (([⟨"3.9.2".data, "3.9.2-slim".data, "3.9".data, "slim".data⟩,
        ⟨"3.9.2".data, "3.9.2-buster".data, "3.9".data, "buster".data⟩] :
          List PyVersion).map (fun p => (p.key, p.distro))).Nodup ∧
    (([⟨"14.1.0".data, "14".data⟩, ⟨"14.2.0".data, "14-slim".data⟩] :
          List NodeVersion).map NodeVersion.key).Nodup ∧
    ¬ ((version_combinations
          [⟨"14.1.0".data, "14".data⟩, ⟨"14.2.0".data, "14-slim".data⟩]
          [⟨"3.9.2".data, "3.9.2-slim".data, "3.9".data, "slim".data⟩,
            ⟨"3.9.2".data, "3.9.2-buster".data, "3.9".data, "buster".data⟩]).map
        Combination.key).Nodup := by
  refine ⟨by decide, by decide, by decide⟩

/-- C4 (amended): each combination's key is `python<pykey>-nodejs<nodekey>`
with `-<distro>` appended exactly when the distro differs from the default
distro; and the produced set's keys are pairwise distinct for inputs with
pairwise distinct `(python_key, distro)` pairs and distinct Node.js keys,
provided the Python keys, Node.js keys and distros contain no `-` character
(without the hyphen restriction distinct triples can collide, see the
counterexample). -/
theorem combination_key_unique_amended (nodejs_versions : List NodeVersion)
    (python_versions : List PyVersion)
    (hfree : ∀ p ∈ python_versions, '-' ∉ p.key ∧ '-' ∉ p.distro)
    (hnfree : ∀ n ∈ nodejs_versions, '-' ∉ n.key)
    (hpnd : (python_versions.map (fun p => (p.key, p.distro))).Nodup)
    (hnk : (nodejs_versions.map NodeVersion.key).Nodup) :
    (∀ p ∈ python_versions, ∀ n ∈ nodejs_versions,
      (mkCombination p n).key = "python".data ++ p.key ++ "-nodejs".data ++ n.key ++
        (if p.distro = DEFAULT_DISTRO then [] else '-' :: p.distro)) ∧
    ((version_combinations nodejs_versions python_versions).map Combination.key).Nodup := by
  constructor
  · intro p _ n _
    exact mkCombination_key_eq p n
  · have hperm : (version_combinations nodejs_versions python_versions).Perm
        (crossProduct python_versions nodejs_versions) :=
      (perm_sortByCmp _ _).trans ((perm_sortByCmp _ _).trans (perm_sortByCmp _ _))
    have hmapperm := hperm.map Combination.key
    rw [hmapperm.nodup_iff]
    exact crossProduct_keys_nodup python_versions nodejs_versions hfree hnfree hpnd hnk

/-- C4 witness: on a concrete hyphen-free input pair the key formula and the
key uniqueness of the produced set hold. -/
theorem combination_key_unique_witness :
    (∀ p ∈ ([⟨"3.9.2".data, "3.9.2-buster".data, "3.9".data, "buster".data⟩,
        ⟨"3.9.2".data, "3.9.2-slim".data, "3.9".data, "slim".data⟩] : List PyVersion),
      ∀ n ∈ ([⟨"14.1.0".data, "14".data⟩] : List NodeVersion),
      (mkCombination p n).key = "python".data ++ p.key ++ "-nodejs".data ++ n.key ++
        (if p.distro = DEFAULT_DISTRO then [] else '-' :: p.distro)) ∧
    ((version_combinations [⟨"14.1.0".data, "14".data⟩]
        [⟨"3.9.2".data, "3.9.2-buster".data, "3.9".data, "buster".data⟩,
          ⟨"3.9.2".data, "3.9.2-slim".data, "3.9".data, "slim".data⟩]).map
      Combination.key).Nodup :=
  combination_key_unique_amended [⟨"14.1.0".data, "14".data⟩]
    [⟨"3.9.2".data, "3.9.2-buster".data, "3.9".data, "buster".data⟩,
      ⟨"3.9.2".data, "3.9.2-slim".data, "3.9".data, "slim".data⟩]
    (by decide) (by decide) (by decide) (by decide)

theorem buildLoop_no_exit (dry_run : Bool) (buildOk pushOk : Str → Bool)
    (l : List Combination) :
    ∀ code, (buildLoop dry_run buildOk pushOk l).2.2 ≠ ExitStatus.exited code := by
  induction l with
  | nil => intro code h; simp [buildLoop] at h
  | cons v rest ih =>
    intro code h
    unfold buildLoop at h
    by_cases hdry : dry_run = true
    · rw [if_pos hdry] at h
      exact ih code h
    · rw [if_neg hdry] at h
      by_cases hb : buildOk v.key = true
      · simp only [hb, Bool.not_true, Bool.false_eq_true, if_false] at h
        by_cases hp : pushOk v.key = true
        · simp only [hp, Bool.not_true, Bool.false_eq_true, if_false] at h
          exact ih code h
        · simp only [Bool.not_eq_true] at hp
          simp [hp] at h
      · simp only [Bool.not_eq_true] at hb
        simp [hb] at h

/-- C5 counterexample: a run whose new-or-updated set is empty can still
change the persisted state file, because `main` persists the newly computed
list before change detection.  Baseline `{k1, k2}`, new list `{k1}` (entry
unchanged): change detection finds nothing to do, yet the versions file now
holds only `k1`. -/
theorem nothing_to_do_persist_changed_counterexample :
    new_or_updated
        [⟨"k1".data, "3.9".data, "3.9.1".data, "i1".data, "14".data, "14.1.0".data, "buster".data⟩,
          ⟨"k2".data, "3.8".data, "3.8.1".data, "i2".data, "14".data, "14.1.0".data, "buster".data⟩]
        [⟨"k1".data, "3.9".data, "3.9.1".data, "i1".data, "14".data, "14.1.0".data, "buster".data⟩]
        false = [] ∧
    (main_model
        [⟨"k1".data, "3.9".data, "3.9.1".data, "i1".data, "14".data, "14.1.0".data, "buster".data⟩,
          ⟨"k2".data, "3.8".data, "3.8.1".data, "i2".data, "14".data, "14.1.0".data, "buster".data⟩]
        [] [⟨"k1".data, "3.9".data, "3.9.1".data, "i1".data, "14".data, "14.1.0".data, "buster".data⟩]
        false false false true (fun _ => true) (fun _ => true)).versionsFile ≠
      [⟨"k1".data, "3.9".data, "3.9.1".data, "i1".data, "14".data, "14.1.0".data, "buster".data⟩,
        ⟨"k2".data, "3.8".data, "3.8.1".data, "i2".data, "14".data, "14.1.0".data, "buster".data⟩] := by
  refine ⟨by decide, by decide⟩

/-- C5 (amended): when the computed new-or-updated set is empty, the run
reports "nothing to do", exits normally, performs no builds and no registry
pushes; the persisted state file, however, was already rewritten with the
newly computed version list before change detection (it is left untouched only
in dry-run mode), so it equals the new list rather than necessarily its prior
content. -/
theorem nothing_to_do_amended (fileBefore : List Combination) (readmeBefore : Str)
    (versions : List Combination) (dry_run debug force loginOk : Bool)
    (buildOk pushOk : Str → Bool)
    (hempty : new_or_updated fileBefore versions force = []) :
    (main_model fileBefore readmeBefore versions dry_run debug force loginOk
        buildOk pushOk).build.reportedNothing = true ∧
    (main_model fileBefore readmeBefore versions dry_run debug force loginOk
        buildOk pushOk).build.exit = ExitStatus.normal ∧
    (main_model fileBefore readmeBefore versions dry_run debug force loginOk
        buildOk pushOk).build.builds = [] ∧
    (main_model fileBefore readmeBefore versions dry_run debug force loginOk
        buildOk pushOk).build.pushes = [] ∧
    (main_model fileBefore readmeBefore versions dry_run debug force loginOk
        buildOk pushOk).versionsFile =
      (if dry_run then fileBefore else versions) := by
  have hie : (new_or_updated fileBefore versions force).isEmpty = true := by
    rw [hempty]; rfl
  simp [main_model, build_new_or_updated, persist_versions, hie]

/-- C5 witness: the amended statement at a concrete no-change run. -/
theorem nothing_to_do_witness :
    (main_model
        [⟨"k1".data, "3.9".data, "3.9.1".data, "i1".data, "14".data, "14.1.0".data, "buster".data⟩]
        [] [⟨"k1".data, "3.9".data, "3.9.1".data, "i1".data, "14".data, "14.1.0".data, "buster".data⟩]
        false false false true (fun _ => true) (fun _ => true)).build.reportedNothing = true ∧
    (main_model
        [⟨"k1".data, "3.9".data, "3.9.1".data, "i1".data, "14".data, "14.1.0".data, "buster".data⟩]
        [] [⟨"k1".data, "3.9".data, "3.9.1".data, "i1".data, "14".data, "14.1.0".data, "buster".data⟩]
        false false false true (fun _ => true) (fun _ => true)).build.exit = ExitStatus.normal ∧
    (main_model
        [⟨"k1".data, "3.9".data, "3.9.1".data, "i1".data, "14".data, "14.1.0".data, "buster".data⟩]
        [] [⟨"k1".data, "3.9".data, "3.9.1".data, "i1".data, "14".data, "14.1.0".data, "buster".data⟩]
        false false false true (fun _ => true) (fun _ => true)).build.builds = [] ∧
    (main_model
        [⟨"k1".data, "3.9".data, "3.9.1".data, "i1".data, "14".data, "14.1.0".data, "buster".data⟩]
        [] [⟨"k1".data, "3.9".data, "3.9.1".data, "i1".data, "14".data, "14.1.0".data, "buster".data⟩]
        false false false true (fun _ => true) (fun _ => true)).build.pushes = [] ∧
    (main_model
        [⟨"k1".data, "3.9".data, "3.9.1".data, "i1".data, "14".data, "14.1.0".data, "buster".data⟩]
        [] [⟨"k1".data, "3.9".data, "3.9.1".data, "i1".data, "14".data, "14.1.0".data, "buster".data⟩]
        false false false true (fun _ => true) (fun _ => true)).versionsFile =
      (if false then
        [⟨"k1".data, "3.9".data, "3.9.1".data, "i1".data, "14".data, "14.1.0".data, "buster".data⟩]
      else
        [⟨"k1".data, "3.9".data, "3.9.1".data, "i1".data, "14".data, "14.1.0".data, "buster".data⟩]) :=
  nothing_to_do_amended
    [⟨"k1".data, "3.9".data, "3.9.1".data, "i1".data, "14".data, "14.1.0".data, "buster".data⟩]
    [] [⟨"k1".data, "3.9".data, "3.9.1".data, "i1".data, "14".data, "14.1.0".data, "buster".data⟩]
    false false false true (fun _ => true) (fun _ => true) (by decide)

/-- C8 counterexample: a nonzero process exit is not exclusive to
authentication failure: with a successful login and a failing docker build,
the run terminates abnormally via an uncaught `docker.errors.BuildError`
(which the interpreter turns into an unsuccessful process exit), not via the
authentication `exit(1)`. -/
theorem nonzero_exit_not_only_auth_counterexample :
    (build_new_or_updated []
        [⟨"k1".data, "3.9".data, "3.9.1".data, "i1".data, "14".data, "14.1.0".data, "buster".data⟩]
        false false false true (fun _ => false) (fun _ => true)).exit =
      ExitStatus.raised "docker.errors.BuildError" ∧
    (build_new_or_updated []
        [⟨"k1".data, "3.9".data, "3.9.1".data, "i1".data, "14".data, "14.1.0".data, "buster".data⟩]
        false false false true (fun _ => false) (fun _ => true)).exit ≠ ExitStatus.normal := by
  refine ⟨by decide, by decide⟩

/-- C8 (amended): registry authentication failure is always fatal: whenever
the docker-hub login fails and there is work to do, `build_new_or_updated`
stops with exit code 1 before building or pushing any image; and the explicit
nonzero exit code arises only from authentication failure — every other
failure aborts the run through an uncaught exception rather than the explicit
`exit(1)` (and such exceptions also end the process unsuccessfully, see the
counterexample). -/
theorem auth_failure_fatal_amended (current_versions versions : List Combination)
    (dry_run debug force : Bool) (buildOk pushOk : Str → Bool)
    (hne : new_or_updated current_versions versions force ≠ []) :
    (build_new_or_updated current_versions versions dry_run debug force false
        buildOk pushOk =
      { exit := ExitStatus.exited 1, builds := [], pushes := [],
        reportedNothing := false }) ∧
    ∀ (loginOk : Bool) (code : Nat),
      (build_new_or_updated current_versions versions dry_run debug force loginOk
          buildOk pushOk).exit = ExitStatus.exited code →
      code = 1 ∧ loginOk = false := by
  have hie : (new_or_updated current_versions versions force).isEmpty = false := by
    cases h : new_or_updated current_versions versions force with
    | nil => exact absurd h hne
    | cons a b => rfl
  constructor
  · simp [build_new_or_updated, hie]
  · intro loginOk code hcode
    cases loginOk with
    | false =>
      simp [build_new_or_updated, hie] at hcode
      exact ⟨hcode.symm, rfl⟩
    | true =>
      simp only [build_new_or_updated, hie, Bool.false_eq_true, if_false, Bool.not_true] at hcode
      exact absurd hcode (buildLoop_no_exit dry_run buildOk pushOk _ code)

/-- C8 witness: the amended statement at a concrete run with one new entry and
a failed login. -/
theorem auth_failure_fatal_witness :
    (build_new_or_updated []
        [⟨"k1".data, "3.9".data, "3.9.1".data, "i1".data, "14".data, "14.1.0".data, "buster".data⟩]
        false false false false (fun _ => true) (fun _ => true) =
      { exit := ExitStatus.exited 1, builds := [], pushes := [],
        reportedNothing := false }) ∧
    ∀ (loginOk : Bool) (code : Nat),
      (build_new_or_updated []
          [⟨"k1".data, "3.9".data, "3.9.1".data, "i1".data, "14".data, "14.1.0".data, "buster".data⟩]
          false false false loginOk (fun _ => true) (fun _ => true)).exit =
        ExitStatus.exited code →
      code = 1 ∧ loginOk = false :=
  auth_failure_fatal_amended []
    [⟨"k1".data, "3.9".data, "3.9.1".data, "i1".data, "14".data, "14.1.0".data, "buster".data⟩]
    false false false (fun _ => true) (fun _ => true) (by decide)

theorem isPrefixOf_iff_exists {u v : Str} :
    u.isPrefixOf v = true ↔ ∃ w, v = u ++ w := by
  induction u generalizing v with
  | nil => simp [List.isPrefixOf]
  | cons a as ih =>
    cases v with
    | nil => simp [List.isPrefixOf]
    | cons b bs =>
      simp only [List.isPrefixOf, Bool.and_eq_true, beq_iff_eq, ih, List.cons_append,
        List.cons.injEq]
      constructor
      · rintro ⟨rfl, w, rfl⟩
        exact ⟨w, rfl, rfl⟩
      · rintro ⟨w, rfl, rfl⟩
        exact ⟨rfl, w, rfl⟩

theorem isPrefixOf_take {u : Str} : ∀ {v : Str} {n : Nat}, u.length ≤ n →
    u.isPrefixOf (v.take n) = u.isPrefixOf v := by
  induction u with
  | nil => intro v n _; simp [List.isPrefixOf]
  | cons a as ih =>
    intro v n hn
    cases v with
    | nil => simp
    | cons b bs =>
      cases n with
      | zero => simp at hn
      | succ m =>
        simp only [List.take_succ_cons, List.isPrefixOf]
        rw [ih (by simpa using hn)]

theorem isPrefixOf_congr_take {u v v' : Str}
    (h : v.take u.length = v'.take u.length) : u.isPrefixOf v = u.isPrefixOf v' := by
  rw [← isPrefixOf_take (le_refl u.length), h, isPrefixOf_take (le_refl u.length)]

theorem patStartOk_take (t : Str) :
    patStartOk t = patStartOk (t.take (startLitCore.length + 2)) := by
  unfold patStartOk
  have h1 : startLitCore.isPrefixOf (t.take (startLitCore.length + 2)) =
      startLitCore.isPrefixOf t :=
    isPrefixOf_take (by omega)
  have h2 : (t.take (startLitCore.length + 2)).get? (startLitCore.length + 1) =
      t.get? (startLitCore.length + 1) :=
    List.get?_take (by omega)
  rw [h1, h2]

theorem patStartOk_congr_take {t t' : Str}
    (h : t.take (startLitCore.length + 2) = t'.take (startLitCore.length + 2)) :
    patStartOk t = patStartOk t' := by
  rw [patStartOk_take t, patStartOk_take t', h]

theorem patStartOk_startLit (Y : Str) : patStartOk (startLit ++ Y) = true := by
  unfold patStartOk
  rw [Bool.and_eq_true]
  constructor
  · refine isPrefixOf_iff_exists.mpr ⟨['.', '\n'] ++ Y, ?_⟩
    have hsl : (startLit : Str) = startLitCore ++ ['.', '\n'] := by decide
    rw [hsl, List.append_assoc]
  · have hidx : startLitCore.length + 1 < startLit.length := by decide
    rw [List.get?_append hidx]
    simp only [decide_eq_true_eq]
    decide

theorem subScanFuel_congr (repl : Str) : ∀ (fuel : Nat) (t : Str) (fuel' : Nat),
    t.length ≤ fuel → t.length ≤ fuel' →
    subScanFuel repl fuel t = subScanFuel repl fuel' t := by
  intro fuel
  induction fuel with
  | zero =>
    intro t fuel' h h'
    cases t with
    | nil => cases fuel' <;> rfl
    | cons c cs => simp at h
  | succ f ih =>
    intro t fuel' h h'
    cases t with
    | nil => cases fuel' <;> rfl
    | cons c cs =>
      cases fuel' with
      | zero => simp at h'
      | succ f' =>
        simp only [subScanFuel]
        cases hok : patStartOk (c :: cs) with
        | false =>
          simp only [hok, Bool.false_eq_true, if_false]
          rw [ih cs f' (by simp at h; omega) (by simp at h'; omega)]
        | true =>
          simp only [hok, if_true]
          cases hfind : findSub endLit ((c :: cs).drop (startLitCore.length + 3)) with
          | none =>
            simp only
            rw [ih cs f' (by simp at h; omega) (by simp at h'; omega)]
          | some j =>
            simp only
            rw [ih ((c :: cs).drop (startLitCore.length + 3 + j + endLit.length)) f'
              (by simp [List.length_drop] at h ⊢; omega)
              (by simp [List.length_drop] at h' ⊢; omega)]

theorem subScan_cons_eq (repl : Str) (c : Char) (cs : Str) :
    subScan repl (c :: cs) =
      if patStartOk (c :: cs) then
        match findSub endLit ((c :: cs).drop (startLitCore.length + 3)) with
        | some j =>
          repl ++ subScan repl ((c :: cs).drop (startLitCore.length + 3 + j + endLit.length))
        | none => c :: subScan repl cs
      else c :: subScan repl cs := by
  show subScanFuel repl (cs.length + 1) (c :: cs) = _
  simp only [subScanFuel]
  cases hok : patStartOk (c :: cs) with
  | false =>
    simp only [hok, Bool.false_eq_true, if_false]
    rfl
  | true =>
    simp only [hok, if_true]
    cases hfind : findSub endLit ((c :: cs).drop (startLitCore.length + 3)) with
    | none =>
      simp only
      rfl
    | some j =>
      simp only
      congr 1
      exact subScanFuel_congr repl cs.length
        ((c :: cs).drop (startLitCore.length + 3 + j + endLit.length))
        ((c :: cs).drop (startLitCore.length + 3 + j + endLit.length)).length
        (by simp [List.length_drop]; omega) (le_refl _)

theorem subScan_cons_no_start {repl : Str} {c : Char} {cs : Str}
    (h : patStartOk (c :: cs) = false) :
    subScan repl (c :: cs) = c :: subScan repl cs := by
  rw [subScan_cons_eq, h]
  simp

theorem subScan_cons_match {repl : Str} {c : Char} {cs : Str} {j : Nat}
    (hok : patStartOk (c :: cs) = true)
    (hfind : findSub endLit ((c :: cs).drop (startLitCore.length + 3)) = some j) :
    subScan repl (c :: cs) =
      repl ++ subScan repl ((c :: cs).drop (startLitCore.length + 3 + j + endLit.length)) := by
  rw [subScan_cons_eq, hok, hfind]
  simp

theorem findSub_eq_some {needle : Str} : ∀ {hay : Str} {j : Nat},
    (∀ q, q < j → needle.isPrefixOf (hay.drop q) = false) →
    needle.isPrefixOf (hay.drop j) = true → findSub needle hay = some j := by
  intro hay
  induction hay with
  | nil =>
    intro j hbefore hat
    cases hn : needle with
    | nil =>
      cases j with
      | zero => simp [findSub, hn]
      | succ j' =>
        have := hbefore 0 (by omega)
        rw [hn] at this
        simp [List.isPrefixOf] at this
    | cons a as =>
      rw [hn] at hat
      simp [List.isPrefixOf] at hat
  | cons c cs ih =>
    intro j hbefore hat
    cases j with
    | zero =>
      unfold findSub
      rw [List.drop_zero] at hat
      rw [hat]
      simp
    | succ j' =>
      have h0 : needle.isPrefixOf (c :: cs) = false := by
        have := hbefore 0 (by omega)
        rwa [List.drop_zero] at this
      unfold findSub
      rw [h0]
      simp only [Bool.false_eq_true, if_false]
      have hrec : findSub needle cs = some j' := by
        refine ih ?_ ?_
        · intro q hq
          have := hbefore (q + 1) (by omega)
          rwa [List.drop_succ_cons] at this
        · have := hat
          rwa [List.drop_succ_cons] at this
      rw [hrec]
      rfl

theorem subScan_skip (repl : Str) : ∀ (A rest : Str),
    (∀ p, p < A.length → patStartOk ((A ++ rest).drop p) = false) →
    subScan repl (A ++ rest) = A ++ subScan repl rest := by
  intro A
  induction A with
  | nil => intro rest _; simp
  | cons a A' ih =>
    intro rest h
    have h0 : patStartOk (a :: (A' ++ rest)) = false := by
      have := h 0 (by simp)
      simpa using this
    have harg : ∀ p, p < A'.length → patStartOk ((A' ++ rest).drop p) = false := by
      intro p hp
      have := h (p + 1) (by simp; omega)
      rwa [List.cons_append, List.drop_succ_cons] at this
    rw [List.cons_append, subScan_cons_no_start h0, ih rest harg, List.cons_append]

theorem subScan_id (repl : Str) (t : Str)
    (h : ∀ p, p < t.length → patStartOk (t.drop p) = false) :
    subScan repl t = t := by
  have h' : ∀ p, p < t.length → patStartOk ((t ++ ([] : Str)).drop p) = false := by
    intro p hp
    rw [List.append_nil]
    exact h p hp
  have hmain := subScan_skip repl t [] (by simpa using h')
  rw [List.append_nil] at hmain
  rw [hmain]
  simp [subScan, subScanFuel]

theorem take_window_eq {D X Y : Str} {k : Nat} (hk : k ≤ D.length) :
    (D ++ X).take k = (D ++ Y).take k := by
  rw [List.take_append_of_le_length hk, List.take_append_of_le_length hk]

theorem isPrefixOf_drop_window {needle A X Y : Str} {q : Nat}
    (hq : q + needle.length ≤ A.length) :
    needle.isPrefixOf ((A ++ X).drop q) = needle.isPrefixOf ((A ++ Y).drop q) := by
  refine isPrefixOf_congr_take ?_
  rw [List.drop_append_of_le_length (by omega), List.drop_append_of_le_length (by omega)]
  exact take_window_eq (by simp [List.length_drop]; omega)

theorem patStartOk_drop_window {A X Y : Str} {p : Nat}
    (hp : p + (startLitCore.length + 2) ≤ A.length) :
    patStartOk ((A ++ X).drop p) = patStartOk ((A ++ Y).drop p) := by
  refine patStartOk_congr_take ?_
  rw [List.drop_append_of_le_length (by omega), List.drop_append_of_le_length (by omega)]
  exact take_window_eq (by simp [List.length_drop]; omega)

theorem subScan_match (repl m rest : Str) (hm : 1 ≤ m.length)
    (h2 : ∀ p, 1 ≤ p → p < m.length →
      endLit.isPrefixOf ((m ++ endLit).drop p) = false) :
    subScan repl (startLit ++ m ++ endLit ++ rest) = repl ++ subScan repl rest := by
  cases m with
  | nil => simp at hm
  | cons m0 m' =>
    have htext : startLit ++ (m0 :: m') ++ endLit ++ rest =
        startLit ++ ((m0 :: m') ++ (endLit ++ rest)) := by
      simp [List.append_assoc]
    rw [htext]
    obtain ⟨c, cs, hcons⟩ : ∃ c cs, startLit ++ ((m0 :: m') ++ (endLit ++ rest)) = c :: cs := by
      cases hsl : (startLit : Str) with
      | nil => exact absurd hsl (by decide)
      | cons c cs =>
        exact ⟨c, cs ++ ((m0 :: m') ++ (endLit ++ rest)), by rw [List.cons_append]⟩
    have hok : patStartOk (c :: cs) = true := by
      rw [← hcons]
      exact patStartOk_startLit _
    have hdrop3 : (c :: cs).drop (startLitCore.length + 3) = m' ++ (endLit ++ rest) := by
      rw [← hcons]
      have hlen : startLitCore.length + 3 = startLit.length + 1 := by decide
      rw [hlen]
      rw [show startLit.length + 1 = startLit.length + 1 from rfl]
      rw [List.drop_append]
      simp
    have hfind : findSub endLit ((c :: cs).drop (startLitCore.length + 3)) =
        some m'.length := by
      rw [hdrop3]
      refine findSub_eq_some ?_ ?_
      · intro q hq
        have hwin : endLit.isPrefixOf ((m' ++ (endLit ++ rest)).drop q) =
            endLit.isPrefixOf ((m' ++ endLit).drop q) := by
          have hq' : q + endLit.length ≤ (m' ++ endLit).length := by
            simp [List.length_append]
            omega
          have e1 : (m' ++ (endLit ++ rest)) = (m' ++ endLit) ++ rest := by
            simp [List.append_assoc]
          rw [e1]
          calc endLit.isPrefixOf (((m' ++ endLit) ++ rest).drop q)
              = endLit.isPrefixOf (((m' ++ endLit) ++ ([] : Str)).drop q) :=
                isPrefixOf_drop_window hq'
            _ = endLit.isPrefixOf ((m' ++ endLit).drop q) := by rw [List.append_nil]
        rw [hwin]
        have := h2 (q + 1) (by omega) (by simp; omega)
        rwa [List.cons_append, List.drop_succ_cons] at this
      · rw [List.drop_left' rfl]
        exact isPrefixOf_iff_exists.mpr ⟨rest, rfl⟩
    rw [hcons, subScan_cons_match hok hfind, ← hcons]
    congr 1
    congr 1
    have hlen2 : startLitCore.length + 3 + m'.length + endLit.length =
        (startLit ++ (m0 :: m') ++ endLit).length := by
      simp [List.length_append]
      have : startLitCore.length + 3 = startLit.length + 1 := by decide
      omega
    have e2 : startLit ++ ((m0 :: m') ++ (endLit ++ rest)) =
        (startLit ++ (m0 :: m') ++ endLit) ++ rest := by
      simp [List.append_assoc]
    rw [e2, List.drop_left' hlen2.symm]

set_option maxRecDepth 8000 in
/-- C6 counterexample: the claim quantifies over every version sequence, but
idempotence fails when a version field contains the end sentinel `\nLovely!`:
the first rewrite embeds the sentinel inside the table, so the second rewrite
matches a shorter region and duplicates the table tail.  The README below
contains the delimited region (first conjunct: the rewrite changes it), yet
applying the update twice differs from applying it once. -/
theorem readme_update_not_idempotent_counterexample :
    ("intro the following table of available image tags.\nOLD\nLovely! outro".data : Str) =
      "intro ".data ++ startLit ++ "OLD".data ++ endLit ++ " outro".data ∧
    updateReadmeContent
        [⟨"k".data, "3.9".data, "p\nLovely!q".data, "i".data, "14".data, "n".data, "d".data⟩]
        "intro the following table of available image tags.\nOLD\nLovely! outro".data ≠
      "intro the following table of available image tags.\nOLD\nLovely! outro".data ∧
    updateReadmeContent
        [⟨"k".data, "3.9".data, "p\nLovely!q".data, "i".data, "14".data, "n".data, "d".data⟩]
        (updateReadmeContent
          [⟨"k".data, "3.9".data, "p\nLovely!q".data, "i".data, "14".data, "n".data, "d".data⟩]
          "intro the following table of available image tags.\nOLD\nLovely! outro".data) ≠
      updateReadmeContent
        [⟨"k".data, "3.9".data, "p\nLovely!q".data, "i".data, "14".data, "n".data, "d".data⟩]
        "intro the following table of available image tags.\nOLD\nLovely! outro".data := by
  refine ⟨by decide, by decide, by decide⟩

/-- C6 (amended): on READMEs where the sentinels delimit the region uniquely
(the start pattern matches nowhere in the text before the region nor in the
text after it, and the end sentinel does not occur early inside the region)
and for version data whose rendered table contains neither the end sentinel
nor a backslash (Python's replacement-escape processing is then the identity),
`update_readme_tags_table` rewrites exactly the delimited region — leaving the
surrounding content untouched — and applying it a second time leaves the
result unchanged. -/
theorem readme_update_idempotent_amended (versions : List Combination) (A m B : Str)
    (hm : 1 ≤ m.length)
    (h1 : ∀ p, p < A.length →
      patStartOk ((A ++ startLit ++ m ++ endLit ++ B).drop p) = false)
    (h2 : ∀ p, 1 ≤ p → p < m.length →
      endLit.isPrefixOf ((m ++ endLit).drop p) = false)
    (h3 : ∀ p, p < B.length → patStartOk (B.drop p) = false)
    (htable : ∀ p, 1 ≤ p → p < ("\n".data ++ tableOf versions).length →
      endLit.isPrefixOf ((("\n".data ++ tableOf versions) ++ endLit).drop p) = false)
    (hbs : ('\\' : Char) ∉ tableOf versions) :
    updateReadmeContent versions (A ++ startLit ++ m ++ endLit ++ B) =
      A ++ replOf versions ++ B ∧
    updateReadmeContent versions (A ++ replOf versions ++ B) =
      A ++ replOf versions ++ B := by
  have hsll : (startLit : Str).length = startLitCore.length + 2 := by decide
  have erepl : replOf versions = startLit ++ ("\n".data ++ tableOf versions) ++ endLit := by
    unfold replOf
    simp [List.append_assoc]
  constructor
  · unfold updateReadmeContent
    have e0 : A ++ startLit ++ m ++ endLit ++ B =
        A ++ (startLit ++ m ++ endLit ++ B) := by
      simp [List.append_assoc]
    have h1' : ∀ p, p < A.length →
        patStartOk ((A ++ (startLit ++ m ++ endLit ++ B)).drop p) = false := by
      intro p hp
      rw [← e0]
      exact h1 p hp
    rw [e0, subScan_skip _ A _ h1', subScan_match _ m B hm h2, subScan_id _ B h3]
    simp [List.append_assoc]
  · unfold updateReadmeContent
    have e0' : A ++ replOf versions ++ B =
        A ++ (startLit ++ ("\n".data ++ tableOf versions) ++ endLit ++ B) := by
      rw [erepl]
      simp [List.append_assoc]
    have h1'' : ∀ p, p < A.length →
        patStartOk ((A ++ (startLit ++ ("\n".data ++ tableOf versions) ++ endLit ++ B)).drop p)
          = false := by
      intro p hp
      have hx := h1 p hp
      have eL : A ++ startLit ++ m ++ endLit ++ B =
          (A ++ startLit) ++ (m ++ (endLit ++ B)) := by
        simp [List.append_assoc]
      rw [eL] at hx
      have eR : A ++ (startLit ++ ("\n".data ++ tableOf versions) ++ endLit ++ B) =
          (A ++ startLit) ++ (("\n".data ++ tableOf versions) ++ (endLit ++ B)) := by
        simp [List.append_assoc]
      rw [eR]
      have hbound : p + (startLitCore.length + 2) ≤ (A ++ startLit).length := by
        rw [List.length_append, hsll]
        omega
      exact (patStartOk_drop_window hbound).trans hx
    have hm' : 1 ≤ ("\n".data ++ tableOf versions).length := by
      rw [List.length_append]
      have h1c : ("\n".data : Str).length = 1 := by decide
      omega
    rw [e0', subScan_skip _ A _ h1'', subScan_match _ _ B hm' htable, subScan_id _ B h3]
    rw [erepl]

/-- C6 witness: the amended statement on a concrete README
`intro <start>OLD<end> outro` and a benign version row: one rewrite replaces
the region and keeps `intro `/` outro`, a second rewrite changes nothing. -/
theorem readme_update_idempotent_witness :
    updateReadmeContent
        [⟨"k".data, "3.9".data, "3.9.1".data, "i".data, "14".data, "14.1.0".data, "buster".data⟩]
        ("intro ".data ++ startLit ++ "OLD".data ++ endLit ++ " outro".data) =
      "intro ".data ++
        replOf [⟨"k".data, "3.9".data, "3.9.1".data, "i".data, "14".data, "14.1.0".data,
          "buster".data⟩] ++ " outro".data ∧
    updateReadmeContent
        [⟨"k".data, "3.9".data, "3.9.1".data, "i".data, "14".data, "14.1.0".data, "buster".data⟩]
        ("intro ".data ++
          replOf [⟨"k".data, "3.9".data, "3.9.1".data, "i".data, "14".data, "14.1.0".data,
            "buster".data⟩] ++ " outro".data) =
      "intro ".data ++
        replOf [⟨"k".data, "3.9".data, "3.9.1".data, "i".data, "14".data, "14.1.0".data,
          "buster".data⟩] ++ " outro".data :=
  readme_update_idempotent_amended
    [⟨"k".data, "3.9".data, "3.9.1".data, "i".data, "14".data, "14.1.0".data, "buster".data⟩]
    "intro ".data "OLD".data " outro".data
    (by decide) (by decide) (by decide) (by decide) (by decide) (by decide)

/-- C9 (code bug exhibit): when the ticket-info fetch fails, `get_ticket_info`
does return the absent result as the claim describes, but both transition
methods then call `has_ticket_issue(ticket_info)` before their
`if ticket_info:` guard, so instead of terminating normally with no POST they
raise a `TypeError` (subscripting `None`).  The guard one line later shows the
intended behaviour is the claim's. -/
theorem jira_none_ticket_info_raises :
    get_ticket_info none = none ∧
    change_status_to_in_progress (get_ticket_info none) =
      Except.error "TypeError: NoneType object is not subscriptable" ∧
    change_status_to_needs_review (get_ticket_info none) =
      Except.error "TypeError: NoneType object is not subscriptable" := by
  refine ⟨rfl, rfl, rfl⟩

theorem takeWhile_append_all {p : Char → Bool} {u w : Str} (hu : u.all p = true) :
    (u ++ w).takeWhile p = u ++ w.takeWhile p := by
  induction u with
  | nil => simp
  | cons a as ih =>
    simp only [List.all_cons, Bool.and_eq_true] at hu
    simp [List.takeWhile_cons, hu.1, ih hu.2]

theorem vidaSep_dash (w : Str) : vidaSep ('-' :: w) = w := by
  simp [vidaSep]

theorem vidaSep_underscore (w : Str) : vidaSep ('_' :: w) = w := by
  simp [vidaSep]

theorem vidaSep_digit {c : Char} (hc : c.isDigit = true) (w : Str) :
    vidaSep (c :: w) = c :: w := by
  have h1 : ¬(c = '-' ∨ c = '_') := by
    rintro (rfl | rfl)
    · exact absurd hc (by decide)
    · exact absurd hc (by decide)
  simp [vidaSep, h1]

theorem vidaCapture_some_shape {t ds : Str} (h : vidaCapture t = some ds) :
    ds.all Char.isDigit = true ∧ 3 ≤ ds.length ∧ ds.length ≤ 4 := by
  unfold vidaCapture at h
  by_cases hpre : ("vida".data : Str).isPrefixOf t = true
  · rw [if_pos hpre] at h
    by_cases h3 : 3 ≤ ((vidaSep (t.drop 4)).takeWhile Char.isDigit).length
    · rw [if_pos h3] at h
      cases h
      refine ⟨?_, ?_, ?_⟩
      · rw [List.all_eq_true]
        intro x hx
        exact List.mem_takeWhile_imp (List.mem_of_mem_take hx)
      · rw [List.length_take]
        exact le_min (by norm_num) h3
      · rw [List.length_take]
        exact min_le_left _ _
    · rw [if_neg h3] at h
      cases h
  · rw [if_neg hpre] at h
    cases h

theorem searchVida_some_shape {t ds : Str} (h : searchVida t = some ds) :
    ds.all Char.isDigit = true ∧ 3 ≤ ds.length ∧ ds.length ≤ 4 := by
  induction t with
  | nil => simp [searchVida] at h
  | cons c cs ih =>
    unfold searchVida at h
    cases hv : vidaCapture (c :: cs) with
    | none =>
      rw [hv] at h
      exact ih h
    | some ds' =>
      rw [hv] at h
      cases h
      exact vidaCapture_some_shape hv

theorem vidaCapture_isSome_of_decomp {sep run post : Str}
    (hsep : sep = [] ∨ sep = ['-'] ∨ sep = ['_'])
    (hrun : run.all Char.isDigit = true) (hlen : 3 ≤ run.length) :
    (vidaCapture ("vida".data ++ sep ++ run ++ post)).isSome = true := by
  have hpre : ("vida".data : Str).isPrefixOf ("vida".data ++ sep ++ run ++ post) = true :=
    isPrefixOf_iff_exists.mpr ⟨sep ++ run ++ post, by simp⟩
  have hdrop : ("vida".data ++ sep ++ run ++ post).drop 4 = sep ++ run ++ post := by
    have h0 := List.drop_left ("vida".data : Str) (sep ++ run ++ post)
    simpa using h0
  have hsep_eval : vidaSep (sep ++ run ++ post) = run ++ post := by
    rcases hsep with rfl | rfl | rfl
    · simp only [List.nil_append]
      cases run with
      | nil => simp at hlen
      | cons r0 rs =>
        have hr0 : r0.isDigit = true := by
          simp only [List.all_cons, Bool.and_eq_true] at hrun
          exact hrun.1
        exact vidaSep_digit hr0 (rs ++ post)
    · rw [List.cons_append, List.nil_append]
      exact vidaSep_dash _
    · rw [List.cons_append, List.nil_append]
      exact vidaSep_underscore _
  have htw : 3 ≤ ((vidaSep (sep ++ run ++ post)).takeWhile Char.isDigit).length := by
    rw [hsep_eval, takeWhile_append_all hrun, List.length_append]
    omega
  unfold vidaCapture
  rw [if_pos hpre, hdrop, if_pos htw]
  rfl

theorem vidaCapture_some_decomp {t ds : Str} (h : vidaCapture t = some ds) :
    ∃ sep run post, t = "vida".data ++ sep ++ run ++ post ∧
      (sep = [] ∨ sep = ['-'] ∨ sep = ['_']) ∧
      run.all Char.isDigit = true ∧ 3 ≤ run.length := by
  unfold vidaCapture at h
  by_cases hpre : ("vida".data : Str).isPrefixOf t = true
  · rw [if_pos hpre] at h
    rcases isPrefixOf_iff_exists.mp hpre with ⟨w, rfl⟩
    have hdrop : (("vida".data : Str) ++ w).drop 4 = w := by
      have h0 := List.drop_left ("vida".data : Str) w
      simpa using h0
    rw [hdrop] at h
    by_cases h3 : 3 ≤ ((vidaSep w).takeWhile Char.isDigit).length
    · cases w with
      | nil =>
        simp [vidaSep] at h3
      | cons c' cs' =>
        by_cases hsepc : c' = '-' ∨ c' = '_'
        · have hvs : vidaSep (c' :: cs') = cs' := by
            simp [vidaSep, hsepc]
          rw [hvs] at h3
          refine ⟨[c'], cs'.takeWhile Char.isDigit, cs'.dropWhile Char.isDigit, ?_, ?_, ?_, h3⟩
          · simp [List.takeWhile_append_dropWhile]
          · rcases hsepc with rfl | rfl
            · exact Or.inr (Or.inl rfl)
            · exact Or.inr (Or.inr rfl)
          · rw [List.all_eq_true]
            intro x hx
            exact List.mem_takeWhile_imp hx
        · have hvs : vidaSep (c' :: cs') = c' :: cs' := by
            simp [vidaSep, hsepc]
          rw [hvs] at h3
          refine ⟨[], (c' :: cs').takeWhile Char.isDigit, (c' :: cs').dropWhile Char.isDigit,
            ?_, Or.inl rfl, ?_, h3⟩
          · simp [List.takeWhile_append_dropWhile]
          · rw [List.all_eq_true]
            intro x hx
            exact List.mem_takeWhile_imp hx
    · rw [if_neg h3] at h
      cases h
  · rw [if_neg hpre] at h
    cases h

theorem searchVida_isSome_of_capture {t : Str} (h : (vidaCapture t).isSome = true) :
    (searchVida t).isSome = true := by
  cases t with
  | nil =>
    rw [show vidaCapture ([] : Str) = none from rfl] at h
    simp at h
  | cons c cs =>
    unfold searchVida
    cases hv : vidaCapture (c :: cs) with
    | some ds => rfl
    | none =>
      rw [hv] at h
      simp at h

theorem searchVida_isSome_iff {t : Str} :
    (searchVida t).isSome = true ↔
      ∃ pre sep run post, t = pre ++ "vida".data ++ sep ++ run ++ post ∧
        (sep = [] ∨ sep = ['-'] ∨ sep = ['_']) ∧
        run.all Char.isDigit = true ∧ 3 ≤ run.length := by
  constructor
  · intro h
    induction t with
    | nil => simp [searchVida] at h
    | cons c cs ih =>
      unfold searchVida at h
      cases hv : vidaCapture (c :: cs) with
      | some ds =>
        rcases vidaCapture_some_decomp hv with ⟨sep, run, post, hdec, hsep, hrun, hlen⟩
        exact ⟨[], sep, run, post, by simp [hdec], hsep, hrun, hlen⟩
      | none =>
        rw [hv] at h
        rcases ih h with ⟨pre, sep, run, post, hdec, hsep, hrun, hlen⟩
        exact ⟨c :: pre, sep, run, post, by simp [hdec], hsep, hrun, hlen⟩
  · rintro ⟨pre, sep, run, post, rfl, hsep, hrun, hlen⟩
    induction pre with
    | nil =>
      rw [List.nil_append]
      exact searchVida_isSome_of_capture (vidaCapture_isSome_of_decomp hsep hrun hlen)
    | cons c pre' ih =>
      have hgoal : (c :: pre') ++ "vida".data ++ sep ++ run ++ post =
          c :: (pre' ++ ("vida".data ++ (sep ++ (run ++ post)))) := by
        simp
      rw [hgoal]
      unfold searchVida
      cases hv : vidaCapture (c :: (pre' ++ ("vida".data ++ (sep ++ (run ++ post))))) with
      | some ds => rfl
      | none =>
        show (searchVida (pre' ++ ("vida".data ++ (sep ++ (run ++ post))))).isSome = true
        simp only [List.append_assoc] at ih
        exact ih


/-- C10: the stored ticket id of `UpdateJira` is `some` exactly when the
lowercased branch/PR title contains `vida`, an optional single `-` or `_`
separator, and a digit run of length at least three; and every returned value
has the normalised shape `vida-` followed by the three or four captured
digits.  Consequently the stored `ticket_id` is always either of that shape or
`None`, regardless of separator or letter case. -/
theorem jira_ticket_id_spec (s : Str) :
    ((updateJiraTicketId s).isSome = true ↔
      ∃ pre sep run post, lowerStr s = pre ++ "vida".data ++ sep ++ run ++ post ∧
        (sep = [] ∨ sep = ['-'] ∨ sep = ['_']) ∧
        run.all Char.isDigit = true ∧ 3 ≤ run.length) ∧
    ∀ r, updateJiraTicketId s = some r →
      ∃ ds, r = "vida-".data ++ ds ∧ ds.all Char.isDigit = true ∧
        3 ≤ ds.length ∧ ds.length ≤ 4 := by
  constructor
  · rw [show (updateJiraTicketId s).isSome = (searchVida (lowerStr s)).isSome from by
      simp [updateJiraTicketId, get_jira_ticket_id]]
    exact searchVida_isSome_iff
  · intro r hr
    simp only [updateJiraTicketId, get_jira_ticket_id, Option.map_eq_some'] at hr
    rcases hr with ⟨ds, hds, rfl⟩
    obtain ⟨hall, h3, h4⟩ := searchVida_some_shape hds
    exact ⟨ds, rfl, hall, h3, h4⟩

/-- C10 witness: the branch title `Feature/VIDA_1234 cleanup` is recognised
(its lowercase form decomposes around `vida`), and the stored ticket id is
`vida-1234` with the required shape. -/
theorem jira_ticket_id_witness :
    (∃ pre sep run post,
      lowerStr "Feature/VIDA_1234 cleanup".data =
          pre ++ "vida".data ++ sep ++ run ++ post ∧
        (sep = [] ∨ sep = ['-'] ∨ sep = ['_']) ∧
        run.all Char.isDigit = true ∧ 3 ≤ run.length) ∧
    (∃ ds, "vida-1234".data = "vida-".data ++ ds ∧ ds.all Char.isDigit = true ∧
      3 ≤ ds.length ∧ ds.length ≤ 4) ∧
    updateJiraTicketId "Feature/VIDA_1234 cleanup".data = some "vida-1234".data :=
  ⟨(jira_ticket_id_spec "Feature/VIDA_1234 cleanup".data).1.mp (by decide),
    (jira_ticket_id_spec "Feature/VIDA_1234 cleanup".data).2 "vida-1234".data (by decide),
    by decide⟩

/-- C7 witness: with the duplicated maximal tag listed twice the returned tag
is the first occurrence (the decomposition has both earlier survivors strictly
below it). -/
theorem latest_patch_tie_first_witness :
    ∃ pre post,
      latestPatchSurvivors
          ["3.9.1-buster".data, "3.9.2-buster".data, "3.9.2-buster".data]
          "3.9".data (pythonTagPattern ["buster".data]) "buster".data =
          pre ++ _latest_patch
            ["3.9.1-buster".data, "3.9.2-buster".data, "3.9.2-buster".data]
            "3.9".data (pythonTagPattern ["buster".data]) "buster".data :: post ∧
        (∀ y ∈ pre,
          semverCompareStr y
            (_latest_patch ["3.9.1-buster".data, "3.9.2-buster".data, "3.9.2-buster".data]
              "3.9".data (pythonTagPattern ["buster".data]) "buster".data) = .lt) ∧
        ∀ y ∈ latestPatchSurvivors
            ["3.9.1-buster".data, "3.9.2-buster".data, "3.9.2-buster".data]
            "3.9".data (pythonTagPattern ["buster".data]) "buster".data,
          semverCompareStr y
            (_latest_patch ["3.9.1-buster".data, "3.9.2-buster".data, "3.9.2-buster".data]
              "3.9".data (pythonTagPattern ["buster".data]) "buster".data) ≠ .gt :=
  latest_patch_tie_first_spec
    ["3.9.1-buster".data, "3.9.2-buster".data, "3.9.2-buster".data]
    "3.9".data (pythonTagPattern ["buster".data]) "buster".data (by decide) (by decide)

end DPN
